import Mathlib

/-!
Verification of the model-parsing and graph-construction pipeline of
`mps_explaineo` against its design document.

The development shallowly embeds the two relevant Python modules:

* `src/explanation_method/decision_method.py` — concept-index construction
  (`DecisionModel.parse_concepts` / `parse_concept_elements`), XML node
  parsing (`DecisionModel.create_node`), and the `DecisionProperty` /
  `DecisionReference` / `DecisionNode` data classes;
* `src/mps_explaineo/knowledge_base.py` — graph building
  (`KnowledgeBaseModel.from_decision_model` / `create_node`), deferred
  reference resolution (`KnowledgeBase.create_references`) and the pipeline
  driver (`LegalKnowledgeBase.from_decision_method`).

Python dictionaries are modelled as association lists with
overwrite-on-insert, py2neo `Node` objects as records carrying a numeric
object identity (`nid`, standing in for CPython object identity, which is
what py2neo `Subgraph` union deduplicates on), and py2neo `Subgraph` /
`Graph` values as explicit node/relationship lists.
-/

namespace MpsExplaineo

/-! ## Association lists modelling Python dictionaries -/

/-- Insertion with Python `d[k] = v` semantics: any earlier binding of the
key is overwritten. -/
def dinsert {κ α : Type} [DecidableEq κ] (k : κ) (v : α) (d : List (κ × α)) :
    List (κ × α) :=
  d.filter (fun p => p.1 ≠ k) ++ [(k, v)]

/-- Lookup with Python `d.get(k)` semantics. -/
def dget {κ α : Type} [DecidableEq κ] (k : κ) (d : List (κ × α)) : Option α :=
  (d.find? (fun p => p.1 = k)).map (fun p => p.2)

/-! ## Regular-expression fragments used by the source

`decision_method.py` uses two regular expressions:
`re.search(r'\w+$', s)` (longest word-character suffix) and
`re.sub(r'^[^:]*:', '', s)` (delete the leading run of non-colons together
with the first colon). -/

/-- Python `\w` on the ASCII inputs the pipeline consumes: letters, digits
and underscore. -/
def isWordChar (c : Char) : Bool :=
  c.isAlpha || c.isDigit || c = '_'

/-- Models `re.search(r'\w+$', s)`: the maximal nonempty run of word
characters ending at the end of the string, `none` when the final character
is not a word character (or the string is empty). -/
def searchWordSuffix (s : String) : Option String :=
  let rev := s.data.reverse.takeWhile isWordChar
  if rev.isEmpty then none else some (String.mk rev.reverse)

/-- Helper for `re.sub(r'^[^:]*:', '', s)`: drop characters up to and
including the first colon; `none` when the string has no colon (the regex
then does not match and the subject is returned unchanged). -/
def dropThroughColon : List Char → Option (List Char)
  | [] => none
  | c :: rest => if c = ':' then some rest else dropThroughColon rest

/-- Models `re.sub(r'^[^:]*:', '', s)` from `DecisionReference.id`
(`decision_method.py` line 48): everything before and including the first
colon is removed; a string without a colon is unchanged. -/
def pySubLeadingColon (s : String) : String :=
  match dropThroughColon s.data with
  | some rest => String.mk rest
  | none => s

/-! ## `decision_method.py`: data classes -/

/-- `DecisionProperty` (lines 13-29). -/
structure DecisionProperty where
  role : String
  value : String
  name : String
deriving DecidableEq, Repr

/-- `DecisionReference` (lines 31-51).  The `to` field holds the raw
target identifier; it is `none` when the XML reference element carried
neither a `node` nor a `to` attribute (the source then stores Python
`None`). -/
structure DecisionReference where
  role : Option String
  «to» : Option String
  resolve : Option String
deriving DecidableEq, Repr

/-- `DecisionReference.id` (lines 46-48): `re.sub(r'^[^:]*:', '', self.to)`.
When `to` is `None` the source raises `TypeError` inside `re.sub`; the
embedding returns `none` there, and every theorem exercising this branch
carries a well-formedness hypothesis keeping it unreachable. -/
def DecisionReference.id (r : DecisionReference) : Option String :=
  r.«to».map pySubLeadingColon

/-- The `role_xml` field of `DecisionNode`: either the literal string
`'root'` (line 210) or a `<child>` concept element, of which only the
`name` attribute is ever read (line 108). -/
inductive RoleXml where
  | root : RoleXml
  | elem (name : String) : RoleXml
deriving DecidableEq, Repr

mutual
/-- `DecisionNode` (lines 53-121).  `conceptName` models
`concept_xml.get('name')`, the only attribute of `concept_xml` the class
reads. -/
inductive DecisionNode : Type where
  | mk (id : String) (conceptName : String) (roleXml : RoleXml)
      (properties : List DecisionProperty)
      (references : List DecisionReference)
      (children : DecisionForest) : DecisionNode

/-- The `children` list of a `DecisionNode`, as a mutual inductive so that
the graph builder can recurse structurally. -/
inductive DecisionForest : Type where
  | nil : DecisionForest
  | cons (head : DecisionNode) (tail : DecisionForest) : DecisionForest
end

deriving instance DecidableEq for DecisionNode, DecisionForest

def DecisionNode.id : DecisionNode → String
  | .mk i _ _ _ _ _ => i

def DecisionNode.conceptName : DecisionNode → String
  | .mk _ c _ _ _ _ => c

def DecisionNode.roleXml : DecisionNode → RoleXml
  | .mk _ _ r _ _ _ => r

def DecisionNode.properties : DecisionNode → List DecisionProperty
  | .mk _ _ _ ps _ _ => ps

def DecisionNode.references : DecisionNode → List DecisionReference
  | .mk _ _ _ _ rs _ => rs

def DecisionNode.children : DecisionNode → DecisionForest
  | .mk _ _ _ _ _ cs => cs

/-- `DecisionNode.concept` (lines 97-102): the `\w+$` suffix of the
concept's qualified name, falling back to the full name when the regex does
not match. -/
def DecisionNode.concept (n : DecisionNode) : String :=
  match searchWordSuffix n.conceptName with
  | some w => w
  | none => n.conceptName

/-- `DecisionNode.role` (lines 104-111). -/
def DecisionNode.role (n : DecisionNode) : String :=
  match n.roleXml with
  | .root => "root"
  | .elem rn =>
    match searchWordSuffix rn with
    | some w => w
    | none => rn

/-- `DecisionNode.name` (lines 89-95): the value of the first property
whose name is `'name'`, else Python `None`. -/
def DecisionNode.name (n : DecisionNode) : Option String :=
  (n.properties.find? (fun p => p.name = "name")).map DecisionProperty.value

/-- `DecisionNode.ref` (lines 113-121): the single reference's `resolve`
value, or `ValueError` (modelled as `Except.error` with the message text)
when the node carries zero or several references. -/
def DecisionNode.ref (n : DecisionNode) : Except String (Option String) :=
  let refnames := n.references.map DecisionReference.resolve
  if h : refnames.length = 1 then Except.ok (refnames.get ⟨0, by omega⟩)
  else Except.error "Found zero or multiple references"

/-! ## `decision_method.py`: reference extraction in `create_node`

Lines 224-233 of `DecisionModel.create_node` translate one `<ref>` XML
element into a `DecisionReference`.  An XML element is modelled by its
attribute list; `Element.get` is association-list lookup. -/

/-- An XML element's attributes (`xml.etree` guarantees string values for
present attributes; `get` returns `None` for absent ones). -/
structure XmlAttrs where
  attrs : List (String × String)
deriving DecidableEq, Repr

/-- `Element.get(key)`. -/
def XmlAttrs.get (x : XmlAttrs) (k : String) : Option String :=
  dget k x.attrs

/-- Lines 226-232 of `DecisionModel.create_node`: take the `node`
attribute, fall back to `to` when `node` is absent, read `resolve`, and
construct the `DecisionReference` unconditionally. -/
def xmlToReference (xmlReference : XmlAttrs) : DecisionReference :=
  let refRole := xmlReference.get "role"
  let refNode :=
    match xmlReference.get "node" with
    | none => xmlReference.get "to"
    | some v => some v
  let refResolve := xmlReference.get "resolve"
  ⟨refRole, refNode, refResolve⟩

/-! ## `decision_method.py`: the Concept Index

`DecisionModel.parse_concepts` (lines 171-194) walks the `<language>`
declarations of a model file and registers every `<concept>` together with
its `<property>` / `<reference>` / `<child>` slot elements in nested
dictionaries.  Concept and slot XML elements are modelled by the attributes
the source reads plus a numeric identity (`eid` / `cid`), standing in for
the CPython object identity on which the source keys its
element-to-concept association dictionaries. -/

/-- One `<property>`, `<reference>` or `<child>` element of a concept
declaration; `kind` is its tag name. -/
structure SlotElem where
  kind : String
  id : Option String
  index : Option String
  name : Option String
  eid : Nat
deriving DecidableEq, Repr

/-- One `<concept>` element: its `name`, `id` and `index` attributes and
its slot elements in document order. -/
structure ConceptXml where
  name : String
  id : Option String
  index : Option String
  slots : List SlotElem
  cid : Nat
deriving DecidableEq, Repr

/-- `re.search(r'\w+$', concept.get('name')).group(0)` (lines 161, 187).
When the regex does not match the source raises `AttributeError`; the
embedding falls back to the full name, and theorems about parsing carry a
hypothesis that keeps that branch unreachable. -/
def conceptWordName (c : ConceptXml) : String :=
  match searchWordSuffix c.name with
  | some w => w
  | none => c.name

/-- The `elem_library` dictionary of `parse_concepts` (line 182): slot
elements indexed by name, id, index, and owning concept. -/
structure ElemLibrary where
  byName : List (String × SlotElem)
  byId : List (Option String × SlotElem)
  byIndex : List (Option String × SlotElem)
  byConcept : List (Nat × SlotElem)
deriving DecidableEq, Repr

/-- The `concept_library` dictionary of `parse_concepts` (line 181):
concepts indexed by name, id and index, plus its `'property'`,
`'reference'` and `'child'` sub-dictionaries mapping a slot element (by
identity) to its owning concept. -/
structure ConceptLibrary where
  byName : List (String × ConceptXml)
  byId : List (Option String × ConceptXml)
  byIndex : List (Option String × ConceptXml)
  propertyOwner : List (Nat × ConceptXml)
  referenceOwner : List (Nat × ConceptXml)
  childOwner : List (Nat × ConceptXml)
deriving DecidableEq, Repr

/-- The top-level `library` dictionary (line 183):
`{'concept': concept_library, 'property': elem_library,
'reference': elem_library, 'child': elem_library}`.  The source binds the
one `elem_library` object to all three slot-kind keys, so the model holds a
single `elemLib` field shared by the three kinds. -/
structure Library where
  conceptLib : ConceptLibrary
  elemLib : ElemLibrary
deriving DecidableEq, Repr

/-- The dictionary `library[elem_type]` for
`elem_type ∈ {'property', 'reference', 'child'}`: all three keys were bound
to the same `elem_library` object at line 183, so the lookup does not
depend on the kind. -/
def Library.elems (lib : Library) (_elemType : String) : ElemLibrary :=
  lib.elemLib

/-- The slot-kind tag names iterated at line 159. -/
def elemTypes : List String := ["property", "reference", "child"]

/-- The body of the inner loop of `parse_concept_elements` (lines 161-167)
for one slot element `e` of kind `t` inside concept `c`. -/
def registerSlot (c : ConceptXml) (t : String) (e : SlotElem) (lib : Library) :
    Library :=
  let nm := conceptWordName c
  let el : ElemLibrary :=
    { byName := dinsert nm e lib.elemLib.byName
      byId := dinsert e.id e lib.elemLib.byId
      byIndex := dinsert e.index e lib.elemLib.byIndex
      byConcept := dinsert c.cid e lib.elemLib.byConcept }
  let cl : ConceptLibrary :=
    match t with
    | "property" =>
      { lib.conceptLib with
        propertyOwner := dinsert e.eid c lib.conceptLib.propertyOwner }
    | "reference" =>
      { lib.conceptLib with
        referenceOwner := dinsert e.eid c lib.conceptLib.referenceOwner }
    | _ =>
      { lib.conceptLib with
        childOwner := dinsert e.eid c lib.conceptLib.childOwner }
  ⟨cl, el⟩

/-- `DecisionModel.parse_concept_elements` (lines 147-169):
`concept.findall(f'./{elem_type}')` filters the concept's slot elements by
tag, in document order, for each of the three kinds in turn. -/
def parseConceptElements (c : ConceptXml) (lib : Library) : Library :=
  elemTypes.foldl
    (fun l t =>
      (c.slots.filter (fun e => e.kind = t)).foldl
        (fun l2 e => registerSlot c t e l2) l)
    lib

/-- The body of the concept loop of `parse_concepts` (lines 186-192):
register the concept under its word-suffix name, its `index` and its `id`
attributes, then register its slot elements. -/
def registerConcept (c : ConceptXml) (lib : Library) : Library :=
  let cl : ConceptLibrary :=
    { lib.conceptLib with
      byName := dinsert (conceptWordName c) c lib.conceptLib.byName
      byIndex := dinsert c.index c lib.conceptLib.byIndex
      byId := dinsert c.id c lib.conceptLib.byId }
  parseConceptElements c ⟨cl, lib.elemLib⟩

/-- The empty library of line 181-183. -/
def emptyLibrary : Library :=
  ⟨⟨[], [], [], [], [], []⟩, ⟨[], [], [], []⟩⟩

/-- `DecisionModel.parse_concepts` (lines 171-194) on the flattened list of
the file's `<concept>` elements (the source iterates them grouped by
`<language>`; the grouping does not affect the resulting library). -/
def parseConcepts (cs : List ConceptXml) : Library :=
  cs.foldl (fun lib c => registerConcept c lib) emptyLibrary

/-- The slot elements of one concept in the order `parse_concept_elements`
registers them: all `<property>` elements, then all `<reference>` elements,
then all `<child>` elements, each group in document order. -/
def orderedSlots (c : ConceptXml) : List SlotElem :=
  c.slots.filter (fun e => e.kind = "property")
    ++ c.slots.filter (fun e => e.kind = "reference")
    ++ c.slots.filter (fun e => e.kind = "child")

/-- All slot elements of a concept list, in registration order. -/
def allSlots (cs : List ConceptXml) : List SlotElem :=
  (cs.map orderedSlots).flatten

/-! ## `knowledge_base.py`: py2neo values

A py2neo `Node` is a set of labels plus a string-keyed property map; union
of unbound nodes into a `Subgraph` deduplicates by object identity, which
the embedding represents by the `nid` field (each `Node('KBNode')` call
yields a fresh identity, threaded through the builder as a counter). -/

/-- An unbound py2neo `Node`. -/
structure KBNode where
  nid : Nat
  labels : List String
  props : List (String × String)
deriving DecidableEq, Repr

/-- `node[key]` on a py2neo node (`None` when absent). -/
def propLookup (n : KBNode) (k : String) : Option String :=
  dget k n.props

/-- `node[key] = value` on a py2neo node: assigning `None` deletes the
key, assigning a string binds it (overwriting any earlier binding). -/
def setProp (ps : List (String × String)) (k : String) (v : Option String) :
    List (String × String) :=
  match v with
  | some s => dinsert k s ps
  | none => ps.filter (fun p => p.1 ≠ k)

/-- `node.add_label` (a py2neo label set): adds the label when absent. -/
def addLabel (ls : List String) (l : String) : List String :=
  if l ∈ ls then ls else ls ++ [l]

/-- A py2neo `Relationship` between two (unbound or bound) nodes; `rtype`
is the relationship class name (`has_child`, `references_to`, ...). -/
structure Rel where
  rtype : String
  src : KBNode
  dst : KBNode
deriving DecidableEq, Repr

/-- A py2neo `Subgraph`: a set of nodes and a set of relationships.  Nodes
deduplicate by object identity (`nid`); the relationships the builder
unions in are freshly constructed each time, so they are appended. -/
structure Subgraph where
  nodes : List KBNode
  rels : List Rel
deriving DecidableEq, Repr

/-- `subgraph | node`: union with a single node (identity-deduplicated). -/
def Subgraph.addNode (sg : Subgraph) (n : KBNode) : Subgraph :=
  if sg.nodes.any (fun m => m.nid = n.nid) then sg
  else ⟨sg.nodes ++ [n], sg.rels⟩

/-- `subgraph | rel`: union with a single relationship, which also unions
in the relationship's two endpoint nodes. -/
def Subgraph.addRel (sg : Subgraph) (r : Rel) : Subgraph :=
  let sg1 := (sg.addNode r.src).addNode r.dst
  ⟨sg1.nodes, sg1.rels ++ [r]⟩

/-! ## `knowledge_base.py`: the Graph Builder

`KnowledgeBaseModel.from_decision_model` / `create_node`
(lines 65-128). -/

/-- The mutable state `create_node` threads: the growing subgraph, the
pending-reference list, and the fresh-identity counter standing in for
CPython object allocation. -/
structure BuildState where
  subgraph : Subgraph
  referenceList : List (DecisionNode × DecisionReference)
  nextId : Nat

/-- `KnowledgeBaseModel.get_node_by_property` (lines 124-128): the first
node of the subgraph carrying the property with the given value.  (py2neo
iterates a frozen set here; the embedding fixes insertion order, which is
the only observable order when — as in every theorem below — at most one
node matches.) -/
def getNodeByProperty (sg : Subgraph) (k : String) (v : String) :
    Option KBNode :=
  sg.nodes.find? (fun n => propLookup n k = some v)

/-- Lines 93-103 of `KnowledgeBaseModel.create_node`: the property map of
the freshly built KB node — `alef_id`, `role` and `name` first, then one
write per `DecisionProperty` (in order, so a later write wins). -/
def buildProps (dmNode : DecisionNode) : List (String × String) :=
  let p0 := setProp [] "alef_id" (some dmNode.id)
  let p1 := setProp p0 "role" (some dmNode.role)
  let p2 := setProp p1 "name" dmNode.name
  dmNode.properties.foldl (fun ps p => setProp ps p.name (some p.value)) p2

/-- Lines 93-95: `Node('KBNode')` plus the concept and model-name
labels. -/
def buildLabels (dmNode : DecisionNode) (modelName : String) : List String :=
  addLabel (addLabel ["KBNode"] dmNode.concept) modelName

/-- Lines 113-120 of `create_node`: for each reference of the node, look
the (first-colon-stripped) target identifier up among the nodes built so
far; queue the pair on the pending list when absent, emit a
`references_to` relationship when present.  A reference whose raw target is
Python `None` makes the source raise `TypeError` inside
`DecisionReference.id`; the embedding skips it, and the claims below only
quantify over models whose references all carry a target. -/
def createRefsLoop (dmNode : DecisionNode) (kbNode : KBNode)
    (refs : List DecisionReference) (st : BuildState) : BuildState :=
  match refs with
  | [] => st
  | r :: rest =>
    let st1 :=
      match r.id with
      | none => st
      | some i =>
        match getNodeByProperty st.subgraph "alef_id" i with
        | none => { st with referenceList := st.referenceList ++ [(dmNode, r)] }
        | some refNode =>
          { st with
            subgraph := st.subgraph.addRel ⟨"references_to", kbNode, refNode⟩ }
    createRefsLoop dmNode kbNode rest st1

mutual
/-- `KnowledgeBaseModel.create_node` (lines 82-122): build the KB node,
union it into the subgraph, recurse into the children emitting `has_child`
relationships, then process the node's references. -/
def createNode (modelName : String) (dmNode : DecisionNode) (st : BuildState) :
    KBNode × BuildState :=
  match dmNode with
  | .mk i cn rx props refs children =>
    let dm : DecisionNode := .mk i cn rx props refs children
    let kbNode : KBNode :=
      ⟨st.nextId, buildLabels dm modelName, buildProps dm⟩
    let st1 : BuildState :=
      { st with subgraph := st.subgraph.addNode kbNode, nextId := st.nextId + 1 }
    let st2 := createChildren modelName kbNode children st1
    let st3 := createRefsLoop dm kbNode refs st2
    (kbNode, st3)

/-- Lines 107-111 of `create_node`: build each child in order and union in
`has_child(kb_node, kb_child)` (the source re-unions `kb_node` as well,
which deduplicates to a no-op). -/
def createChildren (modelName : String) (kbNode : KBNode)
    (cs : DecisionForest) (st : BuildState) : BuildState :=
  match cs with
  | .nil => st
  | .cons c rest =>
    let built := createNode modelName c st
    let rel : Rel := ⟨"has_child", kbNode, built.1⟩
    let st2 : BuildState :=
      { built.2 with subgraph := (built.2.subgraph.addNode kbNode).addRel rel }
    createChildren modelName kbNode rest st2
end

/-- The root-node list of a decision model (`decision_model.nodes`),
using the mutual forest type. -/
structure DMData where
  modelName : String
  nodes : DecisionForest

/-- `KnowledgeBaseModel` (lines 48-63), with the `decision_model` handle
reduced to the two attributes the knowledge-base code reads
(`model_name` having been consumed during the build). -/
structure KnowledgeBaseModel where
  modelName : String
  subgraph : Subgraph
  referenceList : List (DecisionNode × DecisionReference)
  rootNodes : List KBNode
deriving DecidableEq

/-- Fold of `create_node` over the root-node list, accumulating the
`root_nodes` comprehension of line 78. -/
def buildRoots (modelName : String) (cs : DecisionForest)
    (acc : List KBNode) (st : BuildState) : List KBNode × BuildState :=
  match cs with
  | .nil => (acc, st)
  | .cons c rest =>
    let built := createNode modelName c st
    buildRoots modelName rest (acc ++ [built.1]) built.2

/-- `KnowledgeBaseModel.from_decision_model` (lines 65-80). -/
def fromDecisionModel (d : DMData) : KnowledgeBaseModel :=
  let st0 : BuildState := ⟨⟨[], []⟩, [], 0⟩
  let built := buildRoots d.modelName d.nodes [] st0
  ⟨d.modelName, built.2.subgraph, built.2.referenceList, built.1⟩

/-! ## `knowledge_base.py`: the graph store and the Reference Resolver -/

/-- A py2neo `Graph` (the external store), as the node and relationship
sets the knowledge-base code reads and writes. -/
structure PyGraph where
  nodes : List KBNode
  rels : List Rel
deriving DecidableEq, Repr

/-- `graph.nodes.match(label, alef_id=value).first()` (lines 154-155): the
first stored node carrying the label and binding the key to the value.
The value argument is an `Option` because `DecisionReference.id` can be
`None`-like; Cypher equality with `null` never holds, so that case matches
nothing. -/
def matchFirst (g : PyGraph) (label : String) (k : String)
    (v : Option String) : Option KBNode :=
  match v with
  | none => none
  | some s => g.nodes.find? (fun n => label ∈ n.labels ∧ propLookup n k = some s)

/-- `graph.merge(rel)` for a relationship whose endpoints are bound nodes
(line 159): `MERGE` collapses a relationship with the same type and the
same (identity-matched) endpoints, otherwise creates it. -/
def PyGraph.mergeRel (g : PyGraph) (r : Rel) : PyGraph :=
  if g.rels.any (fun r2 =>
      r2.rtype = r.rtype ∧ r2.src.nid = r.src.nid ∧ r2.dst.nid = r.dst.nid)
  then g
  else { g with rels := g.rels ++ [r] }

/-- One line of the `print` diagnostics of line 162, by its four
interpolated fields. -/
structure MissedReport where
  fromConcept : String
  fromId : String
  toResolve : Option String
  toId : Option String
deriving DecidableEq, Repr

/-- The report the missed-reference branch would print for a pending
entry. -/
def mkReport (e : DecisionNode × DecisionReference) : MissedReport :=
  ⟨e.1.concept, e.1.id, e.2.resolve, e.2.id⟩

/-- The body of the inner loop of `KnowledgeBase.create_references`
(lines 153-162) for one pending entry: match both endpoints in the store;
merge the `references_to` relationship when both are found, otherwise
print the missed reference — only when `print_missed_references` is
set. -/
def createRefEntry (prt : Bool) (acc : PyGraph × List MissedReport)
    (e : DecisionNode × DecisionReference) : PyGraph × List MissedReport :=
  let fromKb := matchFirst acc.1 "KBNode" "alef_id" (some e.1.id)
  let toKb := matchFirst acc.1 "KBNode" "alef_id" e.2.id
  match fromKb, toKb with
  | some f, some t => (acc.1.mergeRel ⟨"references_to", f, t⟩, acc.2)
  | _, _ => if prt then (acc.1, acc.2 ++ [mkReport e]) else acc

/-- `KnowledgeBase.create_references` (lines 145-162): replay every
model's pending list against the store.  The returned list collects the
diagnostics printed along the way. -/
def createReferences (g : PyGraph) (models : List KnowledgeBaseModel)
    (prt : Bool) : PyGraph × List MissedReport :=
  models.foldl (fun acc m => m.referenceList.foldl (createRefEntry prt) acc)
    (g, [])

/-- Whether one pending entry can be resolved against the store's node
set: both the source node's raw identifier and the reference's normalized
target identifier match a stored `KBNode` by `alef_id`.  (The resolver
never changes the node set, so this is invariant across the run.) -/
def resolvable (g : PyGraph) (e : DecisionNode × DecisionReference) : Bool :=
  (matchFirst g "KBNode" "alef_id" (some e.1.id)).isSome
    && (matchFirst g "KBNode" "alef_id" e.2.id).isSome

/-! ## `knowledge_base.py`: bulk merge and the pipeline driver -/

/-- Label-set union for a py2neo merge update. -/
def unionLabels (a b : List String) : List String :=
  b.foldl addLabel a

/-- Property push for a py2neo merge update: the local node's properties
overwrite the stored node's same-named ones. -/
def overwriteProps (stored localProps : List (String × String)) :
    List (String × String) :=
  localProps.foldl (fun ps p => setProp ps p.1 (some p.2)) stored

/-- The stored node after merging a local node onto it. -/
def updateNode (stored localNode : KBNode) : KBNode :=
  ⟨stored.nid, unionLabels stored.labels localNode.labels,
    overwriteProps stored.props localNode.props⟩

/-- `graph.merge(subgraph, label, key)` for one unbound node: `MERGE` on
the primary (label, key-value) pair — update every stored node carrying
the label and the same key value, or create the node when none does.  A
node lacking the primary key cannot match and is created. -/
def mergeNodeInto (g : PyGraph) (label k : String) (n : KBNode) : PyGraph :=
  match propLookup n k with
  | none => { g with nodes := g.nodes ++ [n] }
  | some v =>
    if g.nodes.any (fun m => label ∈ m.labels ∧ propLookup m k = some v) then
      { g with
        nodes := g.nodes.map (fun m =>
          if label ∈ m.labels ∧ propLookup m k = some v then updateNode m n
          else m) }
    else { g with nodes := g.nodes ++ [n] }

/-- `graph.merge(subgraph, label, key)` for one relationship of the
subgraph: collapse with a stored relationship of the same type whose
endpoints agree on the primary key, else create. -/
def mergeRelKeyed (g : PyGraph) (k : String) (r : Rel) : PyGraph :=
  if g.rels.any (fun r2 =>
      r2.rtype = r.rtype ∧ propLookup r2.src k = propLookup r.src k
        ∧ propLookup r2.dst k = propLookup r.dst k)
  then g
  else { g with rels := g.rels ++ [r] }

/-- `graph.merge(model.subgraph, "KBNode", "alef_id")` (line 213): merge
the subgraph's nodes, then its relationships, keyed on the primary
(label, key) pair. -/
def mergeSubgraph (g : PyGraph) (sg : Subgraph) (label k : String) : PyGraph :=
  let g1 := sg.nodes.foldl (fun acc n => mergeNodeInto acc label k n) g
  sg.rels.foldl (fun acc r => mergeRelKeyed acc k r) g1

/-- `LegalDecisionMethod`'s four models (lines 296-299 of
`decision_method.py`), already parsed. -/
structure LegalDecisionMethodData where
  objectModel : DMData
  regelModel : DMData
  serviceModel : DMData
  testModel : DMData

/-- `LegalKnowledgeBase` (lines 171-189), holding the store and the four
built models. -/
structure LegalKnowledgeBase where
  graph : PyGraph
  models : List KnowledgeBaseModel
  objectKb : KnowledgeBaseModel
  regelKb : KnowledgeBaseModel
  serviceKb : KnowledgeBaseModel
  testKb : KnowledgeBaseModel

/-- The graph state after the bulk-merge comprehension of line 213: every
model's subgraph merged into the initial store, keyed on
`("KBNode", "alef_id")`. -/
def mergedGraph (g0 : PyGraph) (models : List KnowledgeBaseModel) : PyGraph :=
  models.foldl (fun acc m => mergeSubgraph acc m.subgraph "KBNode" "alef_id") g0

/-- `LegalKnowledgeBase.from_decision_method` (lines 191-216): build the
four models, merge all four subgraphs into the store, then — and only
then — run the Reference Resolver.  `g0` is the content of
`gdbms[db_name]` before the run; the second component of the result is
the resolver's diagnostic output. -/
def fromDecisionMethod (g0 : PyGraph) (dm : LegalDecisionMethodData)
    (prt : Bool) : LegalKnowledgeBase × List MissedReport :=
  let objectKb := fromDecisionModel dm.objectModel
  let regelKb := fromDecisionModel dm.regelModel
  let serviceKb := fromDecisionModel dm.serviceModel
  let testKb := fromDecisionModel dm.testModel
  let models := [objectKb, regelKb, serviceKb, testKb]
  let g1 := mergedGraph g0 models
  let resolved := createReferences g1 models prt
  (⟨resolved.1, models, objectKb, regelKb, serviceKb, testKb⟩, resolved.2)

/-- The observable operation order of `from_decision_method`: one
graph-building event per model (lines 207-210), one bulk-merge event per
model (line 213), then the reference-resolution event (line 214). -/
inductive KbPhase where
  | buildModel (name : String)
  | mergeModel (name : String)
  | resolveReferences
deriving DecidableEq, Repr

/-- The statement-order trace of `LegalKnowledgeBase.from_decision_method`
(lines 205-214). -/
def fromDecisionMethodPhases (dm : LegalDecisionMethodData) : List KbPhase :=
  [KbPhase.buildModel dm.objectModel.modelName,
   KbPhase.buildModel dm.regelModel.modelName,
   KbPhase.buildModel dm.serviceModel.modelName,
   KbPhase.buildModel dm.testModel.modelName,
   KbPhase.mergeModel dm.objectModel.modelName,
   KbPhase.mergeModel dm.regelModel.modelName,
   KbPhase.mergeModel dm.serviceModel.modelName,
   KbPhase.mergeModel dm.testModel.modelName,
   KbPhase.resolveReferences]

/-! ## Auxiliary measures over decision trees -/

mutual
/-- Number of nodes of one model tree. -/
def treeSize : DecisionNode → Nat
  | .mk _ _ _ _ _ cs => 1 + forestSize cs

/-- Number of nodes of a forest. -/
def forestSize : DecisionForest → Nat
  | .nil => 0
  | .cons c rest => treeSize c + forestSize rest
end

mutual
/-- `true` when no node of the tree carries a reference element. -/
def treeNoRefs : DecisionNode → Bool
  | .mk _ _ _ _ refs cs => refs.isEmpty && forestNoRefs cs

/-- `true` when no node of the forest carries a reference element. -/
def forestNoRefs : DecisionForest → Bool
  | .nil => true
  | .cons c rest => treeNoRefs c && forestNoRefs rest
end

mutual
/-- The identifiers of all nodes of a tree. -/
def treeIds : DecisionNode → List String
  | .mk i _ _ _ _ cs => i :: forestIds cs

/-- The identifiers of all nodes of a forest. -/
def forestIds : DecisionForest → List String
  | .nil => []
  | .cons c rest => treeIds c ++ forestIds rest
end

mutual
/-- All nodes of a tree, root first. -/
def treeNodes : DecisionNode → List DecisionNode
  | .mk i cn rx ps rs cs => .mk i cn rx ps rs cs :: forestNodes cs

/-- All nodes of a forest. -/
def forestNodes : DecisionForest → List DecisionNode
  | .nil => []
  | .cons c rest => treeNodes c ++ forestNodes rest
end

/-- The number of root nodes of a forest. -/
def forestRoots : DecisionForest → Nat
  | .nil => 0
  | .cons _ rest => 1 + forestRoots rest

mutual
/-- `true` when no node of the tree carries an instance property literally
named `alef_id` (such a property write at line 103 of `knowledge_base.py`
would overwrite the identifier written at line 97). -/
def treePropsOk : DecisionNode → Bool
  | .mk _ _ _ props _ cs =>
    props.all (fun p => p.name ≠ "alef_id") && forestPropsOk cs

/-- `treePropsOk` over a forest. -/
def forestPropsOk : DecisionForest → Bool
  | .nil => true
  | .cons c rest => treePropsOk c && forestPropsOk rest
end

/-- All pending entries of a model list, in the order
`create_references` replays them. -/
def allPending (models : List KnowledgeBaseModel) :
    List (DecisionNode × DecisionReference) :=
  (models.map KnowledgeBaseModel.referenceList).flatten

/-- A property map whose keys are pairwise distinct (true of every node the
Graph Builder constructs, since the builder only writes through
`setProp`). -/
def keysNodup (ps : List (String × String)) : Prop :=
  (ps.map Prod.fst).Nodup

/-- The store holds a node carrying the label and binding the key to the
given value — exactly what `graph.nodes.match(label, key=value)` can
retrieve. -/
def hasKeyNode (g : PyGraph) (label k s : String) : Prop :=
  ∃ m ∈ g.nodes, label ∈ m.labels ∧ propLookup m k = some s

/-- All nids occurring in `sg` are below the bound — the freshness
invariant the identity counter maintains. -/
def NidBound (st : BuildState) : Prop :=
  ∀ n ∈ st.subgraph.nodes, n.nid < st.nextId

/-! ## Dictionary lemmas -/

theorem find?_filter_of_imp {α : Type} (l : List α) (p q : α → Bool)
    (h : ∀ a, p a = true → q a = true) :
    (l.filter q).find? p = l.find? p := by
  induction l with
  | nil => rfl
  | cons a rest ih =>
    by_cases hq : q a = true
    · by_cases hp : p a = true
      · simp [List.filter_cons, hq, List.find?_cons_of_pos, hp]
      · have hp2 : p a = false := by simpa using hp
        simp [List.filter_cons, hq, List.find?_cons_of_neg, hp2, ih]
    · have hq2 : q a = false := by simpa using hq
      have hp2 : p a = false := by
        cases hpa : p a
        · rfl
        · exact absurd (h a hpa) (by simp [hq2])
      simp [List.filter_cons, hq2, List.find?_cons_of_neg, hp2, ih]

theorem dget_dinsert_self {κ α : Type} [DecidableEq κ] (k : κ) (v : α)
    (d : List (κ × α)) : dget k (dinsert k v d) = some v := by
  have hnone : (d.filter (fun p => p.1 ≠ k)).find?
      (fun p => decide (p.1 = k)) = none := by
    apply List.find?_eq_none.mpr
    intro p hp
    have h2 := (List.mem_filter.mp hp).2
    simp only [decide_not, Bool.not_eq_eq_eq_not, Bool.not_true,
      decide_eq_false_iff_not] at h2
    simp [h2]
  unfold dget dinsert
  rw [List.find?_append, hnone, Option.none_or]
  simp [List.find?]

theorem dget_dinsert_ne {κ α : Type} [DecidableEq κ] {k k2 : κ} (v : α)
    (d : List (κ × α)) (h : k2 ≠ k) :
    dget k2 (dinsert k v d) = dget k2 d := by
  have hne : ¬ (k = k2) := fun hx => h hx.symm
  have hlast : (List.find? (fun p => decide (p.1 = k2)) [(k, v)]) = none := by
    simp [List.find?, hne]
  have hfilter : (d.filter (fun p => p.1 ≠ k)).find?
      (fun p => decide (p.1 = k2)) = d.find? (fun p => decide (p.1 = k2)) := by
    apply find?_filter_of_imp
    intro a ha
    have ha2 : a.1 = k2 := of_decide_eq_true ha
    have : a.1 ≠ k := by rw [ha2]; exact h
    simpa using this
  unfold dget dinsert
  rw [List.find?_append, hfilter, hlast, Option.or_none]

theorem dget_foldl_dinsert_not_mem {κ α : Type} [DecidableEq κ] (f : α → κ)
    (L : List α) (d : List (κ × α)) (k : κ) (h : k ∉ L.map f) :
    dget k (L.foldl (fun d2 a => dinsert (f a) a d2) d) = dget k d := by
  induction L generalizing d with
  | nil => rfl
  | cons a rest ih =>
    simp only [List.map_cons, List.mem_cons] at h
    push_neg at h
    rw [List.foldl_cons, ih _ h.2, dget_dinsert_ne _ _ h.1]

theorem dget_foldl_dinsert {κ α : Type} [DecidableEq κ] (f : α → κ)
    (L : List α) (x : α) :
    ∀ d : List (κ × α), x ∈ L → (L.map f).Nodup →
      dget (f x) (L.foldl (fun d2 a => dinsert (f a) a d2) d) = some x := by
  induction L with
  | nil => intro d hx _; cases hx
  | cons a rest ih =>
    intro d hx hnd
    simp only [List.map_cons, List.nodup_cons] at hnd
    rcases List.mem_cons.mp hx with hax | hmem
    · subst hax
      rw [List.foldl_cons,
        dget_foldl_dinsert_not_mem f rest _ (f x) hnd.1,
        dget_dinsert_self]
    · rw [List.foldl_cons]
      exact ih _ hmem hnd.2

/-! ## Claim C2 — normalization of reference target identifiers -/

theorem dropThroughColon_append (l1 l2 : List Char)
    (h : ∀ c ∈ l1, c ≠ ':') :
    dropThroughColon (l1 ++ ':' :: l2) = some l2 := by
  induction l1 with
  | nil => simp [dropThroughColon]
  | cons c rest ih =>
    have hc : c ≠ ':' := h c (by simp)
    simp only [List.cons_append, dropThroughColon, if_neg hc]
    exact ih fun x hx => h x (by simp [hx])

/-- Claim C2, corrected part.  The claim says an identifier with several
colon-separated prefixes normalizes to its final segment; the source's
`re.sub(r'^[^:]*:', '', ...)` strips only the first prefix, so `"a:b:c"`
normalizes to `"b:c"`, not to `"c"`. -/
theorem reference_id_counterexample :
    DecisionReference.id ⟨none, some "a:b:c", none⟩ = some "b:c"
      ∧ ("b:c" : String) ≠ "c" := by
  constructor
  · rfl
  · decide

theorem pySubLeadingColon_append (pre suf : String)
    (h : ∀ c ∈ pre.data, c ≠ ':') :
    pySubLeadingColon (pre ++ ":" ++ suf) = suf := by
  have hdata : (pre ++ ":" ++ suf).data = pre.data ++ ':' :: suf.data := by
    simp [String.data_append]
  unfold pySubLeadingColon
  rw [hdata, dropThroughColon_append _ _ h]

/-- Claim C2, amended: the normalized join key strips exactly the first
colon-delimited namespace segment — for a target identifier of the form
`pre ++ ":" ++ suf` with no colon in `pre`, the join key is `suf`, the
suffix preserved exactly.  (For a single colon this is the claim's own
example; with several colons the key keeps everything after the first
colon.) -/
theorem reference_id_strips_first_namespace (role res : Option String)
    (pre suf : String) (h : ∀ c ∈ pre.data, c ≠ ':') :
    DecisionReference.id ⟨role, some (pre ++ ":" ++ suf), res⟩ = some suf := by
  simp [DecisionReference.id, pySubLeadingColon_append pre suf h]

/-- Witness for C2's amended statement at the claim's own example
`"ns:xyz123"`. -/
theorem reference_id_strips_first_namespace_witness :
    DecisionReference.id ⟨none, some ("ns" ++ ":" ++ "xyz123"), none⟩
      = some "xyz123" :=
  reference_id_strips_first_namespace none none "ns" "xyz123" (by decide)

/-! ## Claim C5 — references lacking both target attributes -/

/-- Claim C5, corrected part.  The claim says a reference element missing
both the `node` and the `to` attribute raises a parse error
(`MalformedReference`); `DecisionModel.create_node` instead constructs the
`DecisionReference` with an absent (`None`) target and raises nothing — as
witnessed on a `<ref>` element carrying only `role` and `resolve`. -/
theorem missing_target_counterexample :
    xmlToReference ⟨[("role", "r"), ("resolve", "d")]⟩
      = ⟨some "r", none, some "d"⟩ := by
  rfl

/-- Claim C5, amended: for a reference element missing both
target-identifier attributes, the Model Parser constructs a
`DecisionReference` whose target is the absent marker (`None`) — the role
and resolve attributes are carried over and no parse error is raised
(`xmlToReference` is total). -/
theorem missing_target_yields_none (x : XmlAttrs)
    (hnode : x.get "node" = none) (hto : x.get "to" = none) :
    xmlToReference x = ⟨x.get "role", none, x.get "resolve"⟩ := by
  simp [xmlToReference, hnode, hto]

/-- Witness for C5's amended statement on a concrete malformed `<ref>`
element. -/
theorem missing_target_yields_none_witness :
    (XmlAttrs.mk [("role", "r")]).get "node" = none
      ∧ xmlToReference ⟨[("role", "r")]⟩
        = ⟨some "r", none, none⟩ := by
  refine ⟨by decide, ?_⟩
  have h := missing_target_yields_none ⟨[("role", "r")]⟩ (by decide) (by decide)
  simpa using h

/-! ## Claim C8 — direct pointer takes precedence -/

/-- Claim C8: the target identifier of a parsed reference is the `node`
attribute whenever that attribute is present; only when `node` is absent
does the parser fall back to the `to` attribute. -/
theorem direct_pointer_precedence (x : XmlAttrs) :
    (∀ v, x.get "node" = some v → (xmlToReference x).«to» = some v)
      ∧ (x.get "node" = none → (xmlToReference x).«to» = x.get "to") := by
  constructor
  · intro v hv
    simp [xmlToReference, hv]
  · intro hv
    simp [xmlToReference, hv]

/-- Witness for C8 on an element carrying both attributes: the direct
`node` pointer wins. -/
theorem direct_pointer_precedence_witness :
    (XmlAttrs.mk [("node", "n7"), ("to", "t9")]).get "node" = some "n7"
      ∧ (xmlToReference ⟨[("node", "n7"), ("to", "t9")]⟩).«to» = some "n7" :=
  ⟨by decide,
    (direct_pointer_precedence ⟨[("node", "n7"), ("to", "t9")]⟩).1 "n7"
      (by decide)⟩

/-! ## Claim C6 — the singular reference accessor -/

/-- Claim C6: `DecisionNode.ref` returns a value exactly when the node
carries exactly one reference edge (and then returns that reference's
`resolve` display value); with zero or several reference edges it raises —
the embedding's `Except.error` — and never yields a silent default. -/
theorem singular_ref_accessor (n : DecisionNode) :
    (∀ v, n.ref = Except.ok v ↔ ∃ r, n.references = [r] ∧ v = r.resolve)
      ∧ (n.references.length ≠ 1 →
          n.ref = Except.error "Found zero or multiple references") := by
  constructor
  · intro v
    constructor
    · intro hok
      match hrefs : n.references with
      | [] => simp [DecisionNode.ref, hrefs] at hok
      | [r] =>
        refine ⟨r, rfl, ?_⟩
        simp [DecisionNode.ref, hrefs] at hok
        exact hok.symm
      | r1 :: r2 :: rest => simp [DecisionNode.ref, hrefs] at hok
    · rintro ⟨r, hrefs, hv⟩
      simp [DecisionNode.ref, hrefs, hv]
  · intro hlen
    match hrefs : n.references with
    | [] => simp [DecisionNode.ref, hrefs]
    | [r] => rw [hrefs] at hlen; simp at hlen
    | r1 :: r2 :: rest => simp [DecisionNode.ref, hrefs]

/-- Witness for C6: a node with exactly one reference yields its display
value; the same node with a second reference appended errors. -/
theorem singular_ref_accessor_witness :
    (DecisionNode.mk "a" "C" .root [] [⟨none, some "t", some "X"⟩] .nil).ref
        = Except.ok (some "X")
      ∧ (DecisionNode.mk "a" "C" .root []
            [⟨none, some "t", some "X"⟩, ⟨none, some "u", some "Y"⟩] .nil).ref
        = Except.error "Found zero or multiple references" := by
  constructor
  · exact (singular_ref_accessor _).1 (some "X")
      |>.mpr ⟨⟨none, some "t", some "X"⟩, rfl, rfl⟩
  · exact (singular_ref_accessor _).2 (by decide)

/-! ## Claim C9 — the three slot catalogs are one shared mapping -/

/-- Claim C9: `parse_concepts` binds the single `elem_library` object to
the `'property'`, `'reference'` and `'child'` keys alike, so (i) the three
slot catalogs are literally the same mapping, (ii) a property slot
registered for one concept is retrievable through the `'reference'` (or
`'child'`) catalog, and (iii) a later reference-slot registration under an
equal `id` key overwrites the earlier property slot, as shown on a
two-concept metamodel whose slots share the id `"e1"`. -/
theorem shared_slot_catalogs :
    (∀ (lib : Library) (t1 t2 : String), t1 ∈ elemTypes → t2 ∈ elemTypes →
        lib.elems t1 = lib.elems t2)
      ∧ dget (some "x1")
          ((parseConcepts
            [⟨"a.P", some "c1", some "i1",
                [⟨"property", some "e1", some "x1", some "pn", 1⟩], 1⟩,
             ⟨"a.Q", some "c2", some "i2",
                [⟨"reference", some "e1", some "x2", some "rn", 2⟩], 2⟩]).elems
            "reference").byIndex
        = some ⟨"property", some "e1", some "x1", some "pn", 1⟩
      ∧ dget (some "e1")
          ((parseConcepts
            [⟨"a.P", some "c1", some "i1",
                [⟨"property", some "e1", some "x1", some "pn", 1⟩], 1⟩,
             ⟨"a.Q", some "c2", some "i2",
                [⟨"reference", some "e1", some "x2", some "rn", 2⟩], 2⟩]).elems
            "child").byId
        = some ⟨"reference", some "e1", some "x2", some "rn", 2⟩
      ∧ (⟨"property", some "e1", some "x1", some "pn", 1⟩ : SlotElem)
          ≠ ⟨"reference", some "e1", some "x2", some "rn", 2⟩ := by
  exact ⟨fun lib t1 t2 h1 h2 => rfl, by decide, by decide, by decide⟩

/-- Witness for C9's universally quantified part at two concrete kinds. -/
theorem shared_slot_catalogs_witness :
    emptyLibrary.elems "property" = emptyLibrary.elems "child" :=
  shared_slot_catalogs.1 emptyLibrary "property" "child" (by decide) (by decide)

/-! ## Claim C3 — three-key consistency of the Concept Index -/

theorem registerSlot_conceptLib_byName (c : ConceptXml) (t : String)
    (e : SlotElem) (lib : Library) :
    (registerSlot c t e lib).conceptLib.byName = lib.conceptLib.byName := by
  unfold registerSlot
  split <;> rfl

theorem registerSlot_conceptLib_byId (c : ConceptXml) (t : String)
    (e : SlotElem) (lib : Library) :
    (registerSlot c t e lib).conceptLib.byId = lib.conceptLib.byId := by
  unfold registerSlot
  split <;> rfl

theorem registerSlot_conceptLib_byIndex (c : ConceptXml) (t : String)
    (e : SlotElem) (lib : Library) :
    (registerSlot c t e lib).conceptLib.byIndex = lib.conceptLib.byIndex := by
  unfold registerSlot
  split <;> rfl

theorem registerSlot_elemLib_byId (c : ConceptXml) (t : String)
    (e : SlotElem) (lib : Library) :
    (registerSlot c t e lib).elemLib.byId = dinsert e.id e lib.elemLib.byId :=
  rfl

theorem registerSlot_elemLib_byIndex (c : ConceptXml) (t : String)
    (e : SlotElem) (lib : Library) :
    (registerSlot c t e lib).elemLib.byIndex
      = dinsert e.index e lib.elemLib.byIndex :=
  rfl

theorem slotFold_conceptLib_byName (c : ConceptXml) (t : String)
    (L : List SlotElem) :
    ∀ lib : Library,
      ((L.foldl (fun l2 e => registerSlot c t e l2) lib).conceptLib.byName)
        = lib.conceptLib.byName := by
  induction L with
  | nil => intro lib; rfl
  | cons e rest ih =>
    intro lib
    rw [List.foldl_cons, ih, registerSlot_conceptLib_byName]

theorem slotFold_conceptLib_byId (c : ConceptXml) (t : String)
    (L : List SlotElem) :
    ∀ lib : Library,
      ((L.foldl (fun l2 e => registerSlot c t e l2) lib).conceptLib.byId)
        = lib.conceptLib.byId := by
  induction L with
  | nil => intro lib; rfl
  | cons e rest ih =>
    intro lib
    rw [List.foldl_cons, ih, registerSlot_conceptLib_byId]

theorem slotFold_conceptLib_byIndex (c : ConceptXml) (t : String)
    (L : List SlotElem) :
    ∀ lib : Library,
      ((L.foldl (fun l2 e => registerSlot c t e l2) lib).conceptLib.byIndex)
        = lib.conceptLib.byIndex := by
  induction L with
  | nil => intro lib; rfl
  | cons e rest ih =>
    intro lib
    rw [List.foldl_cons, ih, registerSlot_conceptLib_byIndex]

theorem slotFold_elemLib_byId (c : ConceptXml) (t : String)
    (L : List SlotElem) :
    ∀ lib : Library,
      ((L.foldl (fun l2 e => registerSlot c t e l2) lib).elemLib.byId)
        = L.foldl (fun d e => dinsert e.id e d) lib.elemLib.byId := by
  induction L with
  | nil => intro lib; rfl
  | cons e rest ih =>
    intro lib
    rw [List.foldl_cons, List.foldl_cons, ih, registerSlot_elemLib_byId]

theorem slotFold_elemLib_byIndex (c : ConceptXml) (t : String)
    (L : List SlotElem) :
    ∀ lib : Library,
      ((L.foldl (fun l2 e => registerSlot c t e l2) lib).elemLib.byIndex)
        = L.foldl (fun d e => dinsert e.index e d) lib.elemLib.byIndex := by
  induction L with
  | nil => intro lib; rfl
  | cons e rest ih =>
    intro lib
    rw [List.foldl_cons, List.foldl_cons, ih, registerSlot_elemLib_byIndex]

theorem parseConceptElements_conceptLib_byName (c : ConceptXml)
    (lib : Library) :
    (parseConceptElements c lib).conceptLib.byName = lib.conceptLib.byName := by
  unfold parseConceptElements elemTypes
  simp only [List.foldl_cons, List.foldl_nil]
  rw [slotFold_conceptLib_byName, slotFold_conceptLib_byName,
    slotFold_conceptLib_byName]

theorem parseConceptElements_conceptLib_byId (c : ConceptXml)
    (lib : Library) :
    (parseConceptElements c lib).conceptLib.byId = lib.conceptLib.byId := by
  unfold parseConceptElements elemTypes
  simp only [List.foldl_cons, List.foldl_nil]
  rw [slotFold_conceptLib_byId, slotFold_conceptLib_byId,
    slotFold_conceptLib_byId]

theorem parseConceptElements_conceptLib_byIndex (c : ConceptXml)
    (lib : Library) :
    (parseConceptElements c lib).conceptLib.byIndex
      = lib.conceptLib.byIndex := by
  unfold parseConceptElements elemTypes
  simp only [List.foldl_cons, List.foldl_nil]
  rw [slotFold_conceptLib_byIndex, slotFold_conceptLib_byIndex,
    slotFold_conceptLib_byIndex]

theorem parseConceptElements_elemLib_byId (c : ConceptXml) (lib : Library) :
    (parseConceptElements c lib).elemLib.byId
      = (orderedSlots c).foldl (fun d e => dinsert e.id e d)
          lib.elemLib.byId := by
  unfold parseConceptElements elemTypes orderedSlots
  simp only [List.foldl_cons, List.foldl_nil]
  rw [slotFold_elemLib_byId, slotFold_elemLib_byId, slotFold_elemLib_byId,
    List.foldl_append, List.foldl_append]

theorem parseConceptElements_elemLib_byIndex (c : ConceptXml)
    (lib : Library) :
    (parseConceptElements c lib).elemLib.byIndex
      = (orderedSlots c).foldl (fun d e => dinsert e.index e d)
          lib.elemLib.byIndex := by
  unfold parseConceptElements elemTypes orderedSlots
  simp only [List.foldl_cons, List.foldl_nil]
  rw [slotFold_elemLib_byIndex, slotFold_elemLib_byIndex,
    slotFold_elemLib_byIndex, List.foldl_append, List.foldl_append]

theorem registerConcept_conceptLib_byName (c : ConceptXml) (lib : Library) :
    (registerConcept c lib).conceptLib.byName
      = dinsert (conceptWordName c) c lib.conceptLib.byName := by
  unfold registerConcept
  rw [parseConceptElements_conceptLib_byName]

theorem registerConcept_conceptLib_byId (c : ConceptXml) (lib : Library) :
    (registerConcept c lib).conceptLib.byId
      = dinsert c.id c lib.conceptLib.byId := by
  unfold registerConcept
  rw [parseConceptElements_conceptLib_byId]

theorem registerConcept_conceptLib_byIndex (c : ConceptXml) (lib : Library) :
    (registerConcept c lib).conceptLib.byIndex
      = dinsert c.index c lib.conceptLib.byIndex := by
  unfold registerConcept
  rw [parseConceptElements_conceptLib_byIndex]

theorem registerConcept_elemLib_byId (c : ConceptXml) (lib : Library) :
    (registerConcept c lib).elemLib.byId
      = (orderedSlots c).foldl (fun d e => dinsert e.id e d)
          lib.elemLib.byId := by
  unfold registerConcept
  rw [parseConceptElements_elemLib_byId]

theorem registerConcept_elemLib_byIndex (c : ConceptXml) (lib : Library) :
    (registerConcept c lib).elemLib.byIndex
      = (orderedSlots c).foldl (fun d e => dinsert e.index e d)
          lib.elemLib.byIndex := by
  unfold registerConcept
  rw [parseConceptElements_elemLib_byIndex]

theorem conceptFold_conceptLib_byName (cs : List ConceptXml) :
    ∀ lib : Library,
      ((cs.foldl (fun l c => registerConcept c l) lib).conceptLib.byName)
        = cs.foldl (fun d2 a => dinsert (conceptWordName a) a d2)
            lib.conceptLib.byName := by
  induction cs with
  | nil => intro lib; rfl
  | cons c rest ih =>
    intro lib
    rw [List.foldl_cons, List.foldl_cons, ih, registerConcept_conceptLib_byName]

theorem conceptFold_conceptLib_byId (cs : List ConceptXml) :
    ∀ lib : Library,
      ((cs.foldl (fun l c => registerConcept c l) lib).conceptLib.byId)
        = cs.foldl (fun d2 a => dinsert a.id a d2) lib.conceptLib.byId := by
  induction cs with
  | nil => intro lib; rfl
  | cons c rest ih =>
    intro lib
    rw [List.foldl_cons, List.foldl_cons, ih, registerConcept_conceptLib_byId]

theorem conceptFold_conceptLib_byIndex (cs : List ConceptXml) :
    ∀ lib : Library,
      ((cs.foldl (fun l c => registerConcept c l) lib).conceptLib.byIndex)
        = cs.foldl (fun d2 a => dinsert a.index a d2)
            lib.conceptLib.byIndex := by
  induction cs with
  | nil => intro lib; rfl
  | cons c rest ih =>
    intro lib
    rw [List.foldl_cons, List.foldl_cons, ih,
      registerConcept_conceptLib_byIndex]

theorem conceptFold_elemLib_byId (cs : List ConceptXml) :
    ∀ lib : Library,
      ((cs.foldl (fun l c => registerConcept c l) lib).elemLib.byId)
        = cs.foldl
            (fun d c => (orderedSlots c).foldl (fun d2 e => dinsert e.id e d2) d)
            lib.elemLib.byId := by
  induction cs with
  | nil => intro lib; rfl
  | cons c rest ih =>
    intro lib
    rw [List.foldl_cons, List.foldl_cons, ih, registerConcept_elemLib_byId]

theorem conceptFold_elemLib_byIndex (cs : List ConceptXml) :
    ∀ lib : Library,
      ((cs.foldl (fun l c => registerConcept c l) lib).elemLib.byIndex)
        = cs.foldl
            (fun d c =>
              (orderedSlots c).foldl (fun d2 e => dinsert e.index e d2) d)
            lib.elemLib.byIndex := by
  induction cs with
  | nil => intro lib; rfl
  | cons c rest ih =>
    intro lib
    rw [List.foldl_cons, List.foldl_cons, ih, registerConcept_elemLib_byIndex]

theorem foldl_inner_flatten {α β σ : Type} (f : α → List β) (g : σ → β → σ)
    (cs : List α) :
    ∀ d : σ,
      cs.foldl (fun d2 c => (f c).foldl g d2) d
        = ((cs.map f).flatten).foldl g d := by
  induction cs with
  | nil => intro d; rfl
  | cons c rest ih =>
    intro d
    rw [List.foldl_cons, List.map_cons, List.flatten_cons, List.foldl_append,
      ih]

theorem parseConcepts_elemLib_byId (cs : List ConceptXml) :
    (parseConcepts cs).elemLib.byId
      = (allSlots cs).foldl (fun d2 a => dinsert a.id a d2) [] := by
  unfold parseConcepts allSlots
  rw [conceptFold_elemLib_byId, foldl_inner_flatten]
  rfl

theorem parseConcepts_elemLib_byIndex (cs : List ConceptXml) :
    (parseConcepts cs).elemLib.byIndex
      = (allSlots cs).foldl (fun d2 a => dinsert a.index a d2) [] := by
  unfold parseConcepts allSlots
  rw [conceptFold_elemLib_byIndex, foldl_inner_flatten]
  rfl

/-- Claim C3, corrected part.  The claim says three-key consistency also
holds for every registered slot; but `parse_concept_elements` registers a
slot in the name catalog under its *owning concept's* word-suffix name
(line 161-162), so for a concept `a.Foo` declaring two property slots, the
name key `"Foo"` under which the first slot was registered now yields the
second slot while the first slot's id key still yields the first slot —
the two lookups return different definitions. -/
theorem concept_index_counterexample :
    dget "Foo"
        (parseConcepts
          [⟨"a.Foo", some "c1", some "i1",
              [⟨"property", some "e1", some "x1", some "n1", 1⟩,
               ⟨"property", some "e2", some "x2", some "n2", 2⟩], 1⟩]).elemLib.byName
      = some ⟨"property", some "e2", some "x2", some "n2", 2⟩
    ∧ dget (some "e1")
        (parseConcepts
          [⟨"a.Foo", some "c1", some "i1",
              [⟨"property", some "e1", some "x1", some "n1", 1⟩,
               ⟨"property", some "e2", some "x2", some "n2", 2⟩], 1⟩]).elemLib.byId
      = some ⟨"property", some "e1", some "x1", some "n1", 1⟩
    ∧ (⟨"property", some "e2", some "x2", some "n2", 2⟩ : SlotElem)
      ≠ ⟨"property", some "e1", some "x1", some "n1", 1⟩ := by
  refine ⟨by decide, by decide, by decide⟩

/-- Claim C3, amended: in a well-formed metamodel (every concept name has
a word-character suffix; normalized concept names, concept identifiers and
concept positional indices pairwise distinct; slot identifiers and slot
positional indices pairwise distinct across the file), looking a concept
up by its normalized name, by its identifier or by its positional index
returns the same concept definition.  For slots, only the identifier and
positional-index lookups are consistent (they return the registered slot
itself); the name catalog keys every slot by its owning concept's name —
the three catalogs being one shared mapping — so slot-name lookup returns
the concept's last-registered slot and three-key consistency fails
whenever a concept declares more than one slot. -/
theorem concept_index_consistency (cs : List ConceptXml)
    (hn : (cs.map conceptWordName).Nodup)
    (hi : (cs.map ConceptXml.id).Nodup)
    (hx : (cs.map ConceptXml.index).Nodup)
    (hsi : ((allSlots cs).map SlotElem.id).Nodup)
    (hsx : ((allSlots cs).map SlotElem.index).Nodup) :
    ∀ c ∈ cs,
      (dget (conceptWordName c) (parseConcepts cs).conceptLib.byName = some c
        ∧ dget c.id (parseConcepts cs).conceptLib.byId = some c
        ∧ dget c.index (parseConcepts cs).conceptLib.byIndex = some c)
      ∧ ∀ s ∈ orderedSlots c,
          dget s.id (parseConcepts cs).elemLib.byId = some s
            ∧ dget s.index (parseConcepts cs).elemLib.byIndex = some s := by
  intro c hc
  have hby : (parseConcepts cs).conceptLib.byName
      = cs.foldl (fun d2 a => dinsert (conceptWordName a) a d2) [] := by
    unfold parseConcepts
    rw [conceptFold_conceptLib_byName]
    rfl
  have hbyId : (parseConcepts cs).conceptLib.byId
      = cs.foldl (fun d2 a => dinsert a.id a d2) [] := by
    unfold parseConcepts
    rw [conceptFold_conceptLib_byId]
    rfl
  have hbyIdx : (parseConcepts cs).conceptLib.byIndex
      = cs.foldl (fun d2 a => dinsert a.index a d2) [] := by
    unfold parseConcepts
    rw [conceptFold_conceptLib_byIndex]
    rfl
  refine ⟨⟨?_, ?_, ?_⟩, ?_⟩
  · rw [hby]; exact dget_foldl_dinsert conceptWordName cs c [] hc hn
  · rw [hbyId]; exact dget_foldl_dinsert ConceptXml.id cs c [] hc hi
  · rw [hbyIdx]; exact dget_foldl_dinsert ConceptXml.index cs c [] hc hx
  · intro s hs
    have hmem : s ∈ allSlots cs := by
      unfold allSlots
      exact List.mem_flatten.mpr
        ⟨orderedSlots c, List.mem_map_of_mem orderedSlots hc, hs⟩
    constructor
    · rw [parseConcepts_elemLib_byId]
      exact dget_foldl_dinsert SlotElem.id (allSlots cs) s [] hmem hsi
    · rw [parseConcepts_elemLib_byIndex]
      exact dget_foldl_dinsert SlotElem.index (allSlots cs) s [] hmem hsx

/-- Witness for C3's amended statement on a one-concept, one-slot
metamodel. -/
theorem concept_index_consistency_witness :
    dget "Foo"
        (parseConcepts
          [⟨"a.Foo", some "c1", some "i1",
              [⟨"property", some "e1", some "x1", some "n1", 1⟩], 1⟩]).conceptLib.byName
      = some ⟨"a.Foo", some "c1", some "i1",
          [⟨"property", some "e1", some "x1", some "n1", 1⟩], 1⟩
    ∧ dget (some "e1")
        (parseConcepts
          [⟨"a.Foo", some "c1", some "i1",
              [⟨"property", some "e1", some "x1", some "n1", 1⟩], 1⟩]).elemLib.byId
      = some ⟨"property", some "e1", some "x1", some "n1", 1⟩ := by
  have h := concept_index_consistency
    [⟨"a.Foo", some "c1", some "i1",
        [⟨"property", some "e1", some "x1", some "n1", 1⟩], 1⟩]
    (by decide) (by decide) (by decide) (by decide) (by decide)
    ⟨"a.Foo", some "c1", some "i1",
        [⟨"property", some "e1", some "x1", some "n1", 1⟩], 1⟩
    (by decide)
  exact ⟨h.1.1, (h.2 ⟨"property", some "e1", some "x1", some "n1", 1⟩
    (by decide)).1⟩

/-! ## Graph Builder lemmas -/

theorem treeSize_pos (dm : DecisionNode) : 1 ≤ treeSize dm := by
  cases dm
  simp [treeSize]

theorem forestRoots_le_forestSize : ∀ cs : DecisionForest,
    forestRoots cs ≤ forestSize cs
  | .nil => Nat.le_refl 0
  | .cons c rest => by
    have ih := forestRoots_le_forestSize rest
    have h1 := treeSize_pos c
    simp only [forestRoots, forestSize]
    omega

theorem addNode_fresh (sg : Subgraph) (n : KBNode)
    (h : ∀ m ∈ sg.nodes, m.nid ≠ n.nid) :
    sg.addNode n = ⟨sg.nodes ++ [n], sg.rels⟩ := by
  unfold Subgraph.addNode
  rw [if_neg]
  simp only [List.any_eq_true, not_exists, not_and]
  intro m hm
  simpa using h m hm

theorem addNode_present (sg : Subgraph) (n : KBNode)
    (h : ∃ m ∈ sg.nodes, m.nid = n.nid) :
    sg.addNode n = sg := by
  unfold Subgraph.addNode
  rw [if_pos]
  obtain ⟨m, hm, he⟩ := h
  exact List.any_eq_true.mpr ⟨m, hm, by simpa using he⟩

theorem addRel_present (sg : Subgraph) (r : Rel)
    (hs : ∃ m ∈ sg.nodes, m.nid = r.src.nid)
    (hd : ∃ m ∈ sg.nodes, m.nid = r.dst.nid) :
    sg.addRel r = ⟨sg.nodes, sg.rels ++ [r]⟩ := by
  unfold Subgraph.addRel
  rw [addNode_present sg r.src hs, addNode_present sg r.dst hd]

mutual
theorem createNode_count (m : String) :
    ∀ (dm : DecisionNode) (st : BuildState),
      treeNoRefs dm = true → NidBound st →
      (createNode m dm st).1.nid = st.nextId
        ∧ (createNode m dm st).2.subgraph.nodes.length
            = st.subgraph.nodes.length + treeSize dm
        ∧ (createNode m dm st).2.subgraph.rels.length
            = st.subgraph.rels.length + (treeSize dm - 1)
        ∧ (createNode m dm st).2.nextId = st.nextId + treeSize dm
        ∧ NidBound (createNode m dm st).2
        ∧ (∀ k, (∃ n ∈ st.subgraph.nodes, n.nid = k) →
            ∃ n ∈ (createNode m dm st).2.subgraph.nodes, n.nid = k)
        ∧ (∃ n ∈ (createNode m dm st).2.subgraph.nodes, n.nid = st.nextId)
        ∧ (∀ r ∈ (createNode m dm st).2.subgraph.rels,
            r ∈ st.subgraph.rels ∨ r.rtype = "has_child")
  | .mk i cn rx props refs children, st, hr, hinv => by
    have hrefs : refs = [] ∧ forestNoRefs children = true := by
      have := hr
      simp only [treeNoRefs, Bool.and_eq_true, List.isEmpty_eq_true] at this
      exact this
    obtain ⟨hrefs1, hrefs2⟩ := hrefs
    subst hrefs1
    simp only [createNode, createRefsLoop]
    set dm : DecisionNode := .mk i cn rx props [] children with hdm
    set kbNode : KBNode := ⟨st.nextId, buildLabels dm m, buildProps dm⟩
      with hkb
    have hadd : st.subgraph.addNode kbNode
        = ⟨st.subgraph.nodes ++ [kbNode], st.subgraph.rels⟩ := by
      apply addNode_fresh
      intro n hn
      have := hinv n hn
      simp only [hkb]
      omega
    set st1 : BuildState :=
      { st with subgraph := st.subgraph.addNode kbNode,
                nextId := st.nextId + 1 } with hst1
    have hinv1 : NidBound st1 := by
      intro n hn
      simp only [hst1, hadd] at hn ⊢
      rcases List.mem_append.mp hn with hn2 | hn2
      · exact Nat.lt_succ_of_lt (hinv n hn2)
      · simp only [List.mem_singleton] at hn2
        subst hn2
        simp [hkb]
    have hpres1 : ∃ n ∈ st1.subgraph.nodes, n.nid = kbNode.nid := by
      refine ⟨kbNode, ?_, rfl⟩
      simp [hst1, hadd]
    have hch := createChildren_count m kbNode children st1 hrefs2 hinv1 hpres1
    obtain ⟨hc1, hc2, hc3, hc4, hc5, hc6⟩ := hch
    have hsize : treeSize dm = 1 + forestSize children := by
      simp [hdm, treeSize]
    have hn1 : st1.subgraph.nodes.length = st.subgraph.nodes.length + 1 := by
      simp [hst1, hadd]
    have hr1 : st1.subgraph.rels.length = st.subgraph.rels.length := by
      simp [hst1, hadd]
    refine ⟨by trivial, ?_, ?_, ?_, hc4, ?_, ?_, ?_⟩
    · rw [hc1, hn1]; omega
    · rw [hc2, hr1]; omega
    · rw [hc3]; simp only [hst1]; omega
    · intro k hk
      apply hc5
      obtain ⟨n, hn, he⟩ := hk
      exact ⟨n, by simp [hst1, hadd, List.mem_append]; exact Or.inl hn, he⟩
    · apply hc5
      exact hpres1
    · intro r hrn
      rcases hc6 r hrn with h2 | h2
      · left
        simpa [hst1, hadd] using h2
      · right; exact h2

theorem createChildren_count (m : String) (kb : KBNode) :
    ∀ (cs : DecisionForest) (st : BuildState),
      forestNoRefs cs = true → NidBound st →
      (∃ n ∈ st.subgraph.nodes, n.nid = kb.nid) →
      (createChildren m kb cs st).subgraph.nodes.length
          = st.subgraph.nodes.length + forestSize cs
        ∧ (createChildren m kb cs st).subgraph.rels.length
            = st.subgraph.rels.length + forestSize cs
        ∧ (createChildren m kb cs st).nextId = st.nextId + forestSize cs
        ∧ NidBound (createChildren m kb cs st)
        ∧ (∀ k, (∃ n ∈ st.subgraph.nodes, n.nid = k) →
            ∃ n ∈ (createChildren m kb cs st).subgraph.nodes, n.nid = k)
        ∧ (∀ r ∈ (createChildren m kb cs st).subgraph.rels,
            r ∈ st.subgraph.rels ∨ r.rtype = "has_child")
  | .nil, st, _, hinv, hkb => by
    simp only [createChildren, forestSize]
    exact ⟨by omega, by omega, by omega, hinv, fun k hk => hk,
      fun r hr => Or.inl hr⟩
  | .cons c rest, st, hr, hinv, hkb => by
    have hrs : treeNoRefs c = true ∧ forestNoRefs rest = true := by
      have := hr
      simp only [forestNoRefs, Bool.and_eq_true] at this
      exact this
    have hcn := createNode_count m c st hrs.1 hinv
    obtain ⟨hn0, hn1, hn2, hn3, hn4, hn5, hn6, hn7⟩ := hcn
    simp only [createChildren]
    set built := createNode m c st with hbuilt
    set rel : Rel := ⟨"has_child", kb, built.1⟩ with hrel
    have hkbp : ∃ n ∈ built.2.subgraph.nodes, n.nid = kb.nid := hn5 kb.nid hkb
    have haddkb : built.2.subgraph.addNode kb = built.2.subgraph :=
      addNode_present _ _ hkbp
    have haddrel : built.2.subgraph.addRel rel
        = ⟨built.2.subgraph.nodes, built.2.subgraph.rels ++ [rel]⟩ := by
      apply addRel_present
      · exact hkbp
      · rw [hrel]
        simp only [hn0]
        exact hn6
    set st2 : BuildState :=
      { built.2 with
        subgraph := (built.2.subgraph.addNode kb).addRel rel } with hst2
    have hst2sub : st2.subgraph
        = ⟨built.2.subgraph.nodes, built.2.subgraph.rels ++ [rel]⟩ := by
      rw [hst2, haddkb, haddrel]
    have hinv2 : NidBound st2 := by
      intro n hn
      rw [hst2sub] at hn
      exact hn4 n hn
    have hkb2 : ∃ n ∈ st2.subgraph.nodes, n.nid = kb.nid := by
      rw [hst2sub]
      exact hkbp
    have ih := createChildren_count m kb rest st2 hrs.2 hinv2 hkb2
    obtain ⟨ih1, ih2, ih3, ih4, ih5, ih6⟩ := ih
    have htp := treeSize_pos c
    refine ⟨?_, ?_, ?_, ih4, ?_, ?_⟩
    · rw [ih1, hst2sub]
      simp only [forestSize]
      rw [hn1]
      omega
    · rw [ih2, hst2sub]
      simp only [forestSize, List.length_append]
      rw [hn2]
      simp only [List.length_singleton]
      omega
    · rw [ih3]
      simp only [hst2]
      rw [hn3]
      simp only [forestSize]
      omega
    · intro k hk
      apply ih5
      rw [hst2sub]
      exact hn5 k hk
    · intro r hrn
      rcases ih6 r hrn with h2 | h2
      · rw [hst2sub] at h2
        simp only [List.mem_append, List.mem_singleton] at h2
        rcases h2 with h3 | h3
        · rcases hn7 r h3 with h4 | h4
          · exact Or.inl h4
          · exact Or.inr h4
        · subst h3
          exact Or.inr rfl
      · exact Or.inr h2
end

theorem buildRoots_count (m : String) :
    ∀ (cs : DecisionForest) (acc : List KBNode) (st : BuildState),
      forestNoRefs cs = true → NidBound st →
      (buildRoots m cs acc st).2.subgraph.nodes.length
          = st.subgraph.nodes.length + forestSize cs
        ∧ (buildRoots m cs acc st).2.subgraph.rels.length
            = st.subgraph.rels.length + (forestSize cs - forestRoots cs)
        ∧ NidBound (buildRoots m cs acc st).2
        ∧ (∀ r ∈ (buildRoots m cs acc st).2.subgraph.rels,
            r ∈ st.subgraph.rels ∨ r.rtype = "has_child")
  | .nil, acc, st, _, hinv => by
    simp only [buildRoots, forestSize, forestRoots]
    exact ⟨by omega, by omega, hinv, fun r hr => Or.inl hr⟩
  | .cons c rest, acc, st, hr, hinv => by
    have hrs : treeNoRefs c = true ∧ forestNoRefs rest = true := by
      have := hr
      simp only [forestNoRefs, Bool.and_eq_true] at this
      exact this
    have hcn := createNode_count m c st hrs.1 hinv
    obtain ⟨hn0, hn1, hn2, hn3, hn4, hn5, hn6, hn7⟩ := hcn
    simp only [buildRoots]
    have ih := buildRoots_count m rest (acc ++ [(createNode m c st).1])
      (createNode m c st).2 hrs.2 hn4
    obtain ⟨ih1, ih2, ih3, ih4⟩ := ih
    have htp := treeSize_pos c
    have hfr := forestRoots_le_forestSize rest
    refine ⟨?_, ?_, ih3, ?_⟩
    · rw [ih1, hn1]
      simp only [forestSize]
      omega
    · rw [ih2, hn2]
      simp only [forestSize, forestRoots]
      omega
    · intro r hrn
      rcases ih4 r hrn with h2 | h2
      · rcases hn7 r h2 with h3 | h3
        · exact Or.inl h3
        · exact Or.inr h3
      · exact Or.inr h2

/-! ## Claim C4 — node and containment-edge counts -/

/-- Claim C4: for a model forest with `N` nodes (distinct identifiers) and
no reference elements, the Graph Builder produces exactly `N` graph nodes
and exactly `N − R` containment edges, all of type `has_child`, where `R`
is the number of root nodes. -/
theorem graph_builder_counts (d : DMData)
    (_hdist : (forestIds d.nodes).Nodup)
    (hr : forestNoRefs d.nodes = true) :
    (fromDecisionModel d).subgraph.nodes.length = forestSize d.nodes
      ∧ (fromDecisionModel d).subgraph.rels.length
          = forestSize d.nodes - forestRoots d.nodes
      ∧ ∀ r ∈ (fromDecisionModel d).subgraph.rels, r.rtype = "has_child" := by
  have hinv0 : NidBound ⟨⟨[], []⟩, [], 0⟩ := by
    intro n hn
    cases hn
  have h := buildRoots_count d.modelName d.nodes [] ⟨⟨[], []⟩, [], 0⟩ hr hinv0
  obtain ⟨h1, h2, _, h4⟩ := h
  unfold fromDecisionModel
  refine ⟨by simpa using h1, by simpa using h2, ?_⟩
  intro r hrn
  rcases h4 r hrn with h5 | h5
  · cases h5
  · exact h5

/-- Witness for C4 on a two-tree forest: three nodes, two roots, one
`has_child` edge. -/
theorem graph_builder_counts_witness :
    (fromDecisionModel ⟨"m1",
        .cons (.mk "a1" "x.Rule" .root [] []
            (.cons (.mk "b1" "x.Cond" (.elem "y.kids") [] [] .nil) .nil))
          (.cons (.mk "c1" "x.Rule" .root [] [] .nil) .nil)⟩).subgraph.nodes.length
      = forestSize (.cons (.mk "a1" "x.Rule" .root [] []
            (.cons (.mk "b1" "x.Cond" (.elem "y.kids") [] [] .nil) .nil))
          (.cons (.mk "c1" "x.Rule" .root [] [] .nil) .nil))
    ∧ (fromDecisionModel ⟨"m1",
        .cons (.mk "a1" "x.Rule" .root [] []
            (.cons (.mk "b1" "x.Cond" (.elem "y.kids") [] [] .nil) .nil))
          (.cons (.mk "c1" "x.Rule" .root [] [] .nil) .nil)⟩).subgraph.rels.length
      = forestSize (.cons (.mk "a1" "x.Rule" .root [] []
            (.cons (.mk "b1" "x.Cond" (.elem "y.kids") [] [] .nil) .nil))
          (.cons (.mk "c1" "x.Rule" .root [] [] .nil) .nil))
        - forestRoots (.cons (.mk "a1" "x.Rule" .root [] []
            (.cons (.mk "b1" "x.Cond" (.elem "y.kids") [] [] .nil) .nil))
          (.cons (.mk "c1" "x.Rule" .root [] [] .nil) .nil))
    ∧ ∀ r ∈ (fromDecisionModel ⟨"m1",
        .cons (.mk "a1" "x.Rule" .root [] []
            (.cons (.mk "b1" "x.Cond" (.elem "y.kids") [] [] .nil) .nil))
          (.cons (.mk "c1" "x.Rule" .root [] [] .nil) .nil)⟩).subgraph.rels,
        r.rtype = "has_child" :=
  graph_builder_counts _ (by decide) (by decide)

/-! ## Reference Resolver lemmas -/

theorem mergeRel_nodes (g : PyGraph) (r : Rel) :
    (g.mergeRel r).nodes = g.nodes := by
  unfold PyGraph.mergeRel
  split <;> rfl

theorem mergeRel_rels_mono (g : PyGraph) (r : Rel) :
    ∀ r2 ∈ g.rels, r2 ∈ (g.mergeRel r).rels := by
  unfold PyGraph.mergeRel
  split
  · exact fun r2 h => h
  · intro r2 h
    exact List.mem_append.mpr (Or.inl h)

theorem mergeRel_ensures (g : PyGraph) (r : Rel) :
    ∃ r2 ∈ (g.mergeRel r).rels,
      r2.rtype = r.rtype ∧ r2.src.nid = r.src.nid ∧ r2.dst.nid = r.dst.nid := by
  unfold PyGraph.mergeRel
  split
  · next h =>
    obtain ⟨r2, hr2, hp⟩ := List.any_eq_true.mp h
    refine ⟨r2, hr2, ?_⟩
    simpa using hp
  · exact ⟨r, List.mem_append.mpr (Or.inr (List.mem_singleton.mpr rfl)),
      rfl, rfl, rfl⟩

theorem matchFirst_congr (g1 g2 : PyGraph) (h : g1.nodes = g2.nodes)
    (label k : String) (v : Option String) :
    matchFirst g1 label k v = matchFirst g2 label k v := by
  unfold matchFirst
  cases v
  · rfl
  · rw [h]

theorem refFold_spec (g : PyGraph) :
    ∀ (L : List (DecisionNode × DecisionReference))
      (acc : PyGraph × List MissedReport),
      acc.1.nodes = g.nodes →
      ((L.foldl (createRefEntry true) acc).1.nodes = g.nodes)
        ∧ ((L.foldl (createRefEntry true) acc).2
            = acc.2 ++ (L.filter (fun e => ! resolvable g e)).map mkReport)
        ∧ (∀ r ∈ acc.1.rels, r ∈ (L.foldl (createRefEntry true) acc).1.rels)
        ∧ (∀ e ∈ L, resolvable g e = true →
            ∃ r ∈ (L.foldl (createRefEntry true) acc).1.rels,
              r.rtype = "references_to"
                ∧ (∃ f, matchFirst g "KBNode" "alef_id" (some e.1.id) = some f
                    ∧ r.src.nid = f.nid)
                ∧ (∃ t, matchFirst g "KBNode" "alef_id" e.2.id = some t
                    ∧ r.dst.nid = t.nid)) := by
  intro L
  induction L with
  | nil =>
    intro acc hn
    exact ⟨hn, by simp, fun r h => h, by intro e h; cases h⟩
  | cons e rest ih =>
    intro acc hn
    have hmf : matchFirst acc.1 "KBNode" "alef_id" (some e.1.id)
        = matchFirst g "KBNode" "alef_id" (some e.1.id) :=
      matchFirst_congr _ _ hn _ _ _
    have hmt : matchFirst acc.1 "KBNode" "alef_id" e.2.id
        = matchFirst g "KBNode" "alef_id" e.2.id :=
      matchFirst_congr _ _ hn _ _ _
    rw [List.foldl_cons]
    cases hf : matchFirst g "KBNode" "alef_id" (some e.1.id) with
    | some f =>
      cases ht : matchFirst g "KBNode" "alef_id" e.2.id with
      | some t =>
        have hres : resolvable g e = true := by
          simp [resolvable, hf, ht]
        have hstep : createRefEntry true acc e
            = (acc.1.mergeRel ⟨"references_to", f, t⟩, acc.2) := by
          unfold createRefEntry
          rw [hmf, hmt, hf, ht]
        rw [hstep]
        have hacc2 : (acc.1.mergeRel ⟨"references_to", f, t⟩,
            acc.2).1.nodes = g.nodes := by
          rw [mergeRel_nodes]
          exact hn
        have hrest := ih _ hacc2
        obtain ⟨ih1, ih2, ih3, ih4⟩ := hrest
        refine ⟨ih1, ?_, ?_, ?_⟩
        · rw [ih2]
          simp [List.filter_cons, hres]
        · intro r hr
          exact ih3 r (mergeRel_rels_mono _ _ r hr)
        · intro e2 he2 hres2
          rcases List.mem_cons.mp he2 with he3 | he3
          · subst he3
            obtain ⟨r2, hr2, hty, hsrc, hdst⟩ :=
              mergeRel_ensures acc.1 ⟨"references_to", f, t⟩
            refine ⟨r2, ih3 r2 hr2, hty, ⟨f, hf, hsrc⟩, ⟨t, ht, hdst⟩⟩
          · exact ih4 e2 he3 hres2
      | none =>
        have hres : resolvable g e = false := by
          simp [resolvable, ht]
        have hstep : createRefEntry true acc e
            = (acc.1, acc.2 ++ [mkReport e]) := by
          unfold createRefEntry
          rw [hmf, hmt, hf, ht]
          rfl
        rw [hstep]
        have hrest := ih (acc.1, acc.2 ++ [mkReport e]) hn
        obtain ⟨ih1, ih2, ih3, ih4⟩ := hrest
        refine ⟨ih1, ?_, ih3, ?_⟩
        · rw [ih2]
          simp [List.filter_cons, hres]
        · intro e2 he2 hres2
          rcases List.mem_cons.mp he2 with he3 | he3
          · subst he3
            rw [hres2] at hres
            cases hres
          · exact ih4 e2 he3 hres2
    | none =>
      have hres : resolvable g e = false := by
        simp [resolvable, hf]
      have hstep : createRefEntry true acc e
          = (acc.1, acc.2 ++ [mkReport e]) := by
        unfold createRefEntry
        rw [hmf, hmt, hf]
        rfl
      rw [hstep]
      have hrest := ih (acc.1, acc.2 ++ [mkReport e]) hn
      obtain ⟨ih1, ih2, ih3, ih4⟩ := hrest
      refine ⟨ih1, ?_, ih3, ?_⟩
      · rw [ih2]
        simp [List.filter_cons, hres]
      · intro e2 he2 hres2
        rcases List.mem_cons.mp he2 with he3 | he3
        · subst he3
          rw [hres2] at hres
          cases hres
        · exact ih4 e2 he3 hres2

theorem createReferences_eq_flat (p : Bool) :
    ∀ (ms : List KnowledgeBaseModel) (acc : PyGraph × List MissedReport),
      ms.foldl (fun a m2 => m2.referenceList.foldl (createRefEntry p) a) acc
        = (allPending ms).foldl (createRefEntry p) acc := by
  intro ms
  induction ms with
  | nil => intro acc; rfl
  | cons m rest ih =>
    intro acc
    rw [List.foldl_cons]
    unfold allPending
    rw [List.map_cons, List.flatten_cons, List.foldl_append, ih]
    rfl

/-! ## Claim C1 — the pending-reference partition -/

/-- Claim C1, corrected part.  With the resolver's default invocation
(`print_missed_references=False`) an unresolvable pending reference appears
in *neither* output: running the full pipeline on a model whose one node
references the nonexistent identifier `"x9"` records one pending reference
during graph building, yet the run returns no missed-reference report and
creates no `references_to` edge — the pending reference is silently
dropped, refuting "exactly once ... regardless of how the resolver is
invoked". -/
theorem resolver_partition_counterexample :
    ((fromDecisionMethod ⟨[], []⟩
        ⟨⟨"gegevens", .cons (.mk "a1" "x.Rule" .root []
            [⟨some "r", some "x9", some "X"⟩] .nil) .nil⟩,
         ⟨"regels", .nil⟩, ⟨"services", .nil⟩, ⟨"tests", .nil⟩⟩ false).2 = [])
      ∧ ((fromDecisionMethod ⟨[], []⟩
        ⟨⟨"gegevens", .cons (.mk "a1" "x.Rule" .root []
            [⟨some "r", some "x9", some "X"⟩] .nil) .nil⟩,
         ⟨"regels", .nil⟩, ⟨"services", .nil⟩,
         ⟨"tests", .nil⟩⟩ false).1.graph.rels.filter
          (fun r => r.rtype = "references_to") = [])
      ∧ (fromDecisionModel ⟨"gegevens", .cons (.mk "a1" "x.Rule" .root []
            [⟨some "r", some "x9", some "X"⟩] .nil) .nil⟩).referenceList.length
        = 1 := by
  refine ⟨by decide, by decide, by decide⟩

/-- Claim C1, amended: when the Reference Resolver is invoked with
reporting enabled (`print_missed_references=True`), every pending
reference recorded during graph building appears exactly once in exactly
one of the two outputs: the missed-reference report is precisely the list
of unresolvable pending entries (in replay order), and every resolvable
pending entry has its `references_to` edge — between the two nodes its
identifiers match — present in the resulting graph, merged idempotently.
The resolver never changes the store's node set.  (With reporting disabled
— the default — unresolvable entries are silently dropped, as the
counterexample shows.) -/
theorem resolver_partition (g : PyGraph) (models : List KnowledgeBaseModel) :
    ((createReferences g models true).2
        = ((allPending models).filter (fun e => ! resolvable g e)).map mkReport)
      ∧ ((createReferences g models true).1.nodes = g.nodes)
      ∧ (∀ e ∈ allPending models, resolvable g e = true →
          ∃ r ∈ (createReferences g models true).1.rels,
            r.rtype = "references_to"
              ∧ (∃ f, matchFirst g "KBNode" "alef_id" (some e.1.id) = some f
                  ∧ r.src.nid = f.nid)
              ∧ (∃ t, matchFirst g "KBNode" "alef_id" e.2.id = some t
                  ∧ r.dst.nid = t.nid)) := by
  unfold createReferences
  rw [createReferences_eq_flat]
  have h := refFold_spec g (allPending models) (g, []) rfl
  exact ⟨by simpa using h.2.1, h.1, h.2.2.2⟩

/-- Witness for C1's amended statement: one resolvable pending entry (both
`"a1"` and `"x9"` are stored) yields an empty report and a resolved
edge. -/
theorem resolver_partition_witness :
    ((createReferences ⟨[⟨0, ["KBNode"], [("alef_id", "a1")]⟩,
        ⟨1, ["KBNode"], [("alef_id", "x9")]⟩], []⟩
      [⟨"m1", ⟨[], []⟩,
        [(.mk "a1" "x.Rule" .root [] [⟨some "r", some "x9", some "X"⟩] .nil,
          ⟨some "r", some "x9", some "X"⟩)], []⟩] true).2 = [])
    ∧ (∃ r ∈ (createReferences ⟨[⟨0, ["KBNode"], [("alef_id", "a1")]⟩,
        ⟨1, ["KBNode"], [("alef_id", "x9")]⟩], []⟩
      [⟨"m1", ⟨[], []⟩,
        [(.mk "a1" "x.Rule" .root [] [⟨some "r", some "x9", some "X"⟩] .nil,
          ⟨some "r", some "x9", some "X"⟩)], []⟩] true).1.rels,
        r.rtype = "references_to" ∧ r.src.nid = 0 ∧ r.dst.nid = 1) := by
  have h := resolver_partition ⟨[⟨0, ["KBNode"], [("alef_id", "a1")]⟩,
      ⟨1, ["KBNode"], [("alef_id", "x9")]⟩], []⟩
    [⟨"m1", ⟨[], []⟩,
      [(.mk "a1" "x.Rule" .root [] [⟨some "r", some "x9", some "X"⟩] .nil,
        ⟨some "r", some "x9", some "X"⟩)], []⟩]
  refine ⟨?_, ?_⟩
  · rw [h.1]
    decide
  · have h3 := h.2.2
      (.mk "a1" "x.Rule" .root [] [⟨some "r", some "x9", some "X"⟩] .nil,
        ⟨some "r", some "x9", some "X"⟩) (by decide) (by decide)
    obtain ⟨r, hr, hty, ⟨f, hfm, hfs⟩, ⟨t, htm, hts⟩⟩ := h3
    refine ⟨r, hr, hty, ?_, ?_⟩
    · rw [hfs]
      have : f = ⟨0, ["KBNode"], [("alef_id", "a1")]⟩ := by
        have hd : matchFirst ⟨[⟨0, ["KBNode"], [("alef_id", "a1")]⟩,
            ⟨1, ["KBNode"], [("alef_id", "x9")]⟩], []⟩ "KBNode" "alef_id"
            (some "a1") = some ⟨0, ["KBNode"], [("alef_id", "a1")]⟩ := by
          decide
        rw [show (some "a1")
            = some (DecisionNode.mk "a1" "x.Rule" .root []
                [⟨some "r", some "x9", some "X"⟩] .nil,
              (⟨some "r", some "x9", some "X"⟩ : DecisionReference)).1.id
            from rfl] at hd
        rw [hd] at hfm
        exact (Option.some_inj.mp hfm).symm
      rw [this]
    · rw [hts]
      have : t = ⟨1, ["KBNode"], [("alef_id", "x9")]⟩ := by
        have hd : matchFirst ⟨[⟨0, ["KBNode"], [("alef_id", "a1")]⟩,
            ⟨1, ["KBNode"], [("alef_id", "x9")]⟩], []⟩ "KBNode" "alef_id"
            (some "x9") = some ⟨1, ["KBNode"], [("alef_id", "x9")]⟩ := by
          decide
        rw [show (some "x9")
            = (DecisionNode.mk "a1" "x.Rule" .root []
                [⟨some "r", some "x9", some "X"⟩] .nil,
              (⟨some "r", some "x9", some "X"⟩ : DecisionReference)).2.id
            from rfl] at hd
        rw [hd] at htm
        exact (Option.some_inj.mp htm).symm
      rw [this]

/-! ## Property-map and label lemmas for built nodes -/

theorem dget_filter_ne {κ α : Type} [DecidableEq κ] {k k2 : κ}
    (d : List (κ × α)) (h : k2 ≠ k) :
    dget k2 (d.filter (fun p => p.1 ≠ k)) = dget k2 d := by
  unfold dget
  rw [find?_filter_of_imp]
  intro a ha
  have ha2 : a.1 = k2 := of_decide_eq_true ha
  have : a.1 ≠ k := by rw [ha2]; exact h
  simpa using this

theorem propLookup_setProp_ne {k k2 : String} (ps : List (String × String))
    (v : Option String) (h : k2 ≠ k) :
    dget k2 (setProp ps k v) = dget k2 ps := by
  cases v with
  | some s => exact dget_dinsert_ne s ps h
  | none => exact dget_filter_ne ps h

theorem propLookup_setProp_self (ps : List (String × String)) (k v : String) :
    dget k (setProp ps k (some v)) = some v :=
  dget_dinsert_self k v ps

theorem dget_foldl_setProp_ne {β : Type} (k : String) (kf : β → String)
    (vf : β → String) (L : List β) (h : ∀ b ∈ L, kf b ≠ k) :
    ∀ ps : List (String × String),
      dget k (L.foldl (fun ps2 b => setProp ps2 (kf b) (some (vf b))) ps)
        = dget k ps := by
  induction L with
  | nil => intro ps; rfl
  | cons b rest ih =>
    intro ps
    rw [List.foldl_cons, ih (fun b2 hb => h b2 (List.mem_cons_of_mem b hb)),
      propLookup_setProp_ne _ _ (by
        intro he
        exact h b (List.mem_cons_self b rest) he.symm)]

theorem dget_foldl_setProp_isSome {β : Type} (k : String) (kf : β → String)
    (vf : β → String) (L : List β) :
    ∀ ps : List (String × String), (dget k ps).isSome = true →
      (dget k (L.foldl (fun ps2 b => setProp ps2 (kf b) (some (vf b))) ps)).isSome
        = true := by
  induction L with
  | nil => intro ps hps; exact hps
  | cons b rest ih =>
    intro ps hps
    rw [List.foldl_cons]
    apply ih
    by_cases hb : kf b = k
    · rw [← hb, setProp, dget_dinsert_self]
      rfl
    · rw [propLookup_setProp_ne _ _ (fun he => hb he.symm)]
      exact hps

theorem keysNodup_setProp (ps : List (String × String)) (k : String)
    (v : Option String) (h : keysNodup ps) : keysNodup (setProp ps k v) := by
  have hfilter : keysNodup (ps.filter (fun p => p.1 ≠ k)) := by
    unfold keysNodup at h ⊢
    exact List.Nodup.sublist (List.Sublist.map Prod.fst
      (List.filter_sublist ps)) h
  cases v with
  | none => exact hfilter
  | some s =>
    unfold keysNodup at hfilter ⊢
    unfold setProp dinsert
    rw [List.map_append]
    rw [List.nodup_append]
    refine ⟨hfilter, by simp, ?_⟩
    intro x hx
    simp only [List.map_map, List.mem_map] at hx
    obtain ⟨p, hp, he⟩ := hx
    have h2 := (List.mem_filter.mp hp).2
    simp only [decide_not, Bool.not_eq_eq_eq_not, Bool.not_true,
      decide_eq_false_iff_not] at h2
    simp only [List.map_cons, List.map_nil, List.mem_singleton]
    intro hc
    exact h2 (he.trans hc)

theorem keysNodup_foldl_setProp {β : Type} (kf : β → String)
    (vf : β → String) (L : List β) :
    ∀ ps : List (String × String), keysNodup ps →
      keysNodup (L.foldl (fun ps2 b => setProp ps2 (kf b) (some (vf b))) ps) := by
  induction L with
  | nil => intro ps hps; exact hps
  | cons b rest ih =>
    intro ps hps
    rw [List.foldl_cons]
    exact ih _ (keysNodup_setProp _ _ _ hps)

theorem buildProps_alef_id (dmn : DecisionNode)
    (h : ∀ p ∈ dmn.properties, p.name ≠ "alef_id") :
    dget "alef_id" (buildProps dmn) = some dmn.id := by
  unfold buildProps
  rw [dget_foldl_setProp_ne "alef_id" DecisionProperty.name
      DecisionProperty.value dmn.properties h,
    propLookup_setProp_ne _ _ (by decide),
    propLookup_setProp_ne _ _ (by decide),
    propLookup_setProp_self]

theorem buildProps_alef_isSome (dmn : DecisionNode) :
    (dget "alef_id" (buildProps dmn)).isSome = true := by
  unfold buildProps
  apply dget_foldl_setProp_isSome
  rw [propLookup_setProp_ne _ _ (by decide),
    propLookup_setProp_ne _ _ (by decide),
    propLookup_setProp_self]
  rfl

theorem keysNodup_buildProps (dmn : DecisionNode) :
    keysNodup (buildProps dmn) := by
  unfold buildProps
  apply keysNodup_foldl_setProp
  apply keysNodup_setProp
  apply keysNodup_setProp
  apply keysNodup_setProp
  unfold keysNodup
  simp

theorem mem_addLabel_left (ls : List String) (l x : String) (h : x ∈ ls) :
    x ∈ addLabel ls l := by
  unfold addLabel
  split
  · exact h
  · exact List.mem_append.mpr (Or.inl h)

theorem mem_addLabel_self (ls : List String) (l : String) :
    l ∈ addLabel ls l := by
  unfold addLabel
  split
  · next h => exact h
  · exact List.mem_append.mpr (Or.inr (List.mem_singleton.mpr rfl))

theorem buildLabels_mem (dmn : DecisionNode) (m : String) :
    "KBNode" ∈ buildLabels dmn m ∧ dmn.concept ∈ buildLabels dmn m
      ∧ m ∈ buildLabels dmn m := by
  unfold buildLabels
  exact ⟨mem_addLabel_left _ _ _ (mem_addLabel_left _ _ _ (by simp)),
    mem_addLabel_left _ _ _ (mem_addLabel_self _ _),
    mem_addLabel_self _ _⟩

/-! ## Shape of the nodes the Graph Builder emits -/

theorem createRefsLoop_nodes (dm : DecisionNode) (kb : KBNode) :
    ∀ (refs : List DecisionReference) (st : BuildState),
      (∃ n ∈ st.subgraph.nodes, n.nid = kb.nid) →
      (createRefsLoop dm kb refs st).subgraph.nodes = st.subgraph.nodes
        ∧ (createRefsLoop dm kb refs st).nextId = st.nextId := by
  intro refs
  induction refs with
  | nil => intro st hkb; exact ⟨rfl, rfl⟩
  | cons r rest ih =>
    intro st hkb
    cases hid : r.id with
    | none =>
      simp only [createRefsLoop, hid]
      exact ih st hkb
    | some i =>
      cases hget : getNodeByProperty st.subgraph "alef_id" i with
      | none =>
        simp only [createRefsLoop, hid, hget]
        exact ih { st with referenceList := st.referenceList ++ [(dm, r)] } hkb
      | some refNode =>
        have hrefmem : refNode ∈ st.subgraph.nodes :=
          List.mem_of_find?_eq_some hget
        have haddrel : st.subgraph.addRel ⟨"references_to", kb, refNode⟩
            = ⟨st.subgraph.nodes,
                st.subgraph.rels ++ [⟨"references_to", kb, refNode⟩]⟩ :=
          addRel_present _ _ hkb ⟨refNode, hrefmem, rfl⟩
        simp only [createRefsLoop, hid, hget]
        have hres := ih { st with
          subgraph := st.subgraph.addRel ⟨"references_to", kb, refNode⟩ }
          (by rw [haddrel]; exact hkb)
        constructor
        · rw [hres.1, haddrel]
        · rw [hres.2]

mutual
theorem createNode_shape (m : String) :
    ∀ (dm : DecisionNode) (st : BuildState), NidBound st →
      (∀ n ∈ (createNode m dm st).2.subgraph.nodes,
          n ∈ st.subgraph.nodes
            ∨ ∃ dmn ∈ treeNodes dm,
                n.labels = buildLabels dmn m ∧ n.props = buildProps dmn)
        ∧ NidBound (createNode m dm st).2
        ∧ (createNode m dm st).1.nid = st.nextId
        ∧ (∀ n ∈ st.subgraph.nodes, n ∈ (createNode m dm st).2.subgraph.nodes)
        ∧ (∃ n ∈ (createNode m dm st).2.subgraph.nodes, n.nid = st.nextId)
  | .mk i cn rx props refs children, st, hinv => by
    simp only [createNode]
    set dm : DecisionNode := .mk i cn rx props refs children with hdm
    set kbNode : KBNode := ⟨st.nextId, buildLabels dm m, buildProps dm⟩
      with hkb
    have hadd : st.subgraph.addNode kbNode
        = ⟨st.subgraph.nodes ++ [kbNode], st.subgraph.rels⟩ := by
      apply addNode_fresh
      intro n hn
      have := hinv n hn
      simp only [hkb]
      omega
    set st1 : BuildState :=
      { st with subgraph := st.subgraph.addNode kbNode,
                nextId := st.nextId + 1 } with hst1
    have hinv1 : NidBound st1 := by
      intro n hn
      simp only [hst1, hadd] at hn ⊢
      rcases List.mem_append.mp hn with hn2 | hn2
      · exact Nat.lt_succ_of_lt (hinv n hn2)
      · simp only [List.mem_singleton] at hn2
        subst hn2
        simp [hkb]
    have hpres1 : ∃ n ∈ st1.subgraph.nodes, n.nid = kbNode.nid := by
      refine ⟨kbNode, ?_, rfl⟩
      simp [hst1, hadd]
    have hch := createChildren_shape m kbNode children st1 hinv1 hpres1
    obtain ⟨hs1, hs2, hs3⟩ := hch
    set st2 := createChildren m kbNode children st1 with hst2
    have hkb2 : ∃ n ∈ st2.subgraph.nodes, n.nid = kbNode.nid := by
      refine ⟨kbNode, hs3 kbNode ?_, rfl⟩
      simp [hst1, hadd]
    have hloop := createRefsLoop_nodes dm kbNode refs st2 hkb2
    refine ⟨?_, ?_, by trivial, ?_, ?_⟩
    · intro n hn
      rw [hloop.1] at hn
      rcases hs1 n hn with h2 | h2
      · simp only [hst1, hadd, List.mem_append, List.mem_singleton] at h2
        rcases h2 with h3 | h3
        · exact Or.inl h3
        · subst h3
          refine Or.inr ⟨dm, ?_, rfl, rfl⟩
          simp [hdm, treeNodes]
      · obtain ⟨dmn, hdmn, hsh⟩ := h2
        refine Or.inr ⟨dmn, ?_, hsh⟩
        simp only [hdm, treeNodes, List.mem_cons]
        exact Or.inr hdmn
    · intro n hn
      rw [hloop.1] at hn
      rw [hloop.2]
      exact hs2 n hn
    · intro n hn
      rw [hloop.1]
      apply hs3
      simp only [hst1, hadd, List.mem_append]
      exact Or.inl hn
    · refine ⟨kbNode, ?_, rfl⟩
      rw [hloop.1]
      apply hs3
      simp [hst1, hadd]

theorem createChildren_shape (m : String) (kb : KBNode) :
    ∀ (cs : DecisionForest) (st : BuildState), NidBound st →
      (∃ n ∈ st.subgraph.nodes, n.nid = kb.nid) →
      (∀ n ∈ (createChildren m kb cs st).subgraph.nodes,
          n ∈ st.subgraph.nodes
            ∨ ∃ dmn ∈ forestNodes cs,
                n.labels = buildLabels dmn m ∧ n.props = buildProps dmn)
        ∧ NidBound (createChildren m kb cs st)
        ∧ (∀ n ∈ st.subgraph.nodes,
            n ∈ (createChildren m kb cs st).subgraph.nodes)
  | .nil, st, hinv, _ => by
    simp only [createChildren]
    exact ⟨fun n hn => Or.inl hn, hinv, fun n hn => hn⟩
  | .cons c rest, st, hinv, hkb => by
    have hcn := createNode_shape m c st hinv
    obtain ⟨hn1, hn2, hn3, hn4, hn5⟩ := hcn
    simp only [createChildren]
    set built := createNode m c st with hbuilt
    set rel : Rel := ⟨"has_child", kb, built.1⟩ with hrel
    have hkbp : ∃ n ∈ built.2.subgraph.nodes, n.nid = kb.nid := by
      obtain ⟨n, hn, he⟩ := hkb
      exact ⟨n, hn4 n hn, he⟩
    have haddkb : built.2.subgraph.addNode kb = built.2.subgraph :=
      addNode_present _ _ hkbp
    have haddrel : built.2.subgraph.addRel rel
        = ⟨built.2.subgraph.nodes, built.2.subgraph.rels ++ [rel]⟩ := by
      apply addRel_present
      · exact hkbp
      · rw [hrel]
        simp only [hn3]
        exact hn5
    set st2 : BuildState :=
      { built.2 with
        subgraph := (built.2.subgraph.addNode kb).addRel rel } with hst2
    have hst2sub : st2.subgraph
        = ⟨built.2.subgraph.nodes, built.2.subgraph.rels ++ [rel]⟩ := by
      rw [hst2, haddkb, haddrel]
    have hinv2 : NidBound st2 := by
      intro n hn
      rw [hst2sub] at hn
      exact hn2 n hn
    have hkb2 : ∃ n ∈ st2.subgraph.nodes, n.nid = kb.nid := by
      rw [hst2sub]
      exact hkbp
    have ih := createChildren_shape m kb rest st2 hinv2 hkb2
    obtain ⟨ih1, ih2, ih3⟩ := ih
    refine ⟨?_, ih2, ?_⟩
    · intro n hn
      rcases ih1 n hn with h2 | h2
      · rw [hst2sub] at h2
        rcases hn1 n h2 with h3 | h3
        · exact Or.inl h3
        · obtain ⟨dmn, hdmn, hsh⟩ := h3
          refine Or.inr ⟨dmn, ?_, hsh⟩
          simp only [forestNodes, List.mem_append]
          exact Or.inl hdmn
      · obtain ⟨dmn, hdmn, hsh⟩ := h2
        refine Or.inr ⟨dmn, ?_, hsh⟩
        simp only [forestNodes, List.mem_append]
        exact Or.inr hdmn
    · intro n hn
      apply ih3
      rw [hst2sub]
      exact hn4 n hn
end

theorem buildRoots_shape (m : String) :
    ∀ (cs : DecisionForest) (acc : List KBNode) (st : BuildState),
      NidBound st →
      (∀ n ∈ (buildRoots m cs acc st).2.subgraph.nodes,
          n ∈ st.subgraph.nodes
            ∨ ∃ dmn ∈ forestNodes cs,
                n.labels = buildLabels dmn m ∧ n.props = buildProps dmn)
        ∧ NidBound (buildRoots m cs acc st).2
  | .nil, acc, st, hinv => ⟨fun n hn => Or.inl hn, hinv⟩
  | .cons c rest, acc, st, hinv => by
    have hcn := createNode_shape m c st hinv
    obtain ⟨hn1, hn2, hn3, hn4, hn5⟩ := hcn
    simp only [buildRoots]
    have ih := buildRoots_shape m rest (acc ++ [(createNode m c st).1])
      (createNode m c st).2 hn2
    obtain ⟨ih1, ih2⟩ := ih
    refine ⟨?_, ih2⟩
    intro n hn
    rcases ih1 n hn with h2 | h2
    · rcases hn1 n h2 with h3 | h3
      · exact Or.inl h3
      · obtain ⟨dmn, hdmn, hsh⟩ := h3
        exact Or.inr ⟨dmn,
          by simp only [forestNodes, List.mem_append]; exact Or.inl hdmn, hsh⟩
    · obtain ⟨dmn, hdmn, hsh⟩ := h2
      exact Or.inr ⟨dmn,
        by simp only [forestNodes, List.mem_append]; exact Or.inr hdmn, hsh⟩

theorem fromDecisionModel_shape (d : DMData) :
    ∀ n ∈ (fromDecisionModel d).subgraph.nodes,
      ∃ dmn ∈ forestNodes d.nodes,
        n.labels = buildLabels dmn d.modelName ∧ n.props = buildProps dmn := by
  intro n hn
  have h := buildRoots_shape d.modelName d.nodes [] ⟨⟨[], []⟩, [], 0⟩
    (by intro x hx; cases hx)
  rcases h.1 n hn with h2 | h2
  · cases h2
  · exact h2

theorem fromDecisionModel_node_basic (d : DMData) :
    ∀ n ∈ (fromDecisionModel d).subgraph.nodes,
      "KBNode" ∈ n.labels ∧ (propLookup n "alef_id").isSome = true
        ∧ keysNodup n.props := by
  intro n hn
  obtain ⟨dmn, _, hlab, hprops⟩ := fromDecisionModel_shape d n hn
  refine ⟨?_, ?_, ?_⟩
  · rw [hlab]
    exact (buildLabels_mem dmn d.modelName).1
  · show (dget "alef_id" n.props).isSome = true
    rw [hprops]
    exact buildProps_alef_isSome dmn
  · rw [hprops]
    exact keysNodup_buildProps dmn

/-! ## Merge lemmas -/

theorem mem_unionLabels_left (b : List String) :
    ∀ (a : List String) (x : String), x ∈ a → x ∈ unionLabels a b := by
  induction b with
  | nil => intro a x h; exact h
  | cons l rest ih =>
    intro a x h
    exact ih (addLabel a l) x (mem_addLabel_left a l x h)

theorem overwriteProps_lookup (k s : String) :
    ∀ (localProps : List (String × String)) (stored : List (String × String)),
      keysNodup localProps → dget k localProps = some s →
      dget k (overwriteProps stored localProps) = some s := by
  intro lp
  induction lp with
  | nil =>
    intro stored _ h
    exact absurd h (by simp [dget, List.find?])
  | cons p rest ih =>
    intro stored hnodup hget
    have hnd : p.1 ∉ rest.map Prod.fst ∧ keysNodup rest := by
      unfold keysNodup at hnodup
      simpa [List.nodup_cons] using hnodup
    unfold overwriteProps
    rw [List.foldl_cons]
    by_cases hk : p.1 = k
    · have hs : p.2 = s := by
        unfold dget at hget
        rw [List.find?_cons_of_pos _ (by simpa using hk)] at hget
        simpa using hget
      have hrest : ∀ b ∈ rest, b.1 ≠ k := by
        intro b hb he
        exact hnd.1 (List.mem_map.mpr ⟨b, hb, he.trans hk.symm⟩)
      rw [show rest.foldl (fun ps p2 => setProp ps p2.1 (some p2.2))
            (setProp stored p.1 (some p.2))
          = overwriteProps (setProp stored p.1 (some p.2)) rest from rfl]
      unfold overwriteProps
      rw [dget_foldl_setProp_ne k Prod.fst Prod.snd rest hrest, hk,
        propLookup_setProp_self, hs]
    · have hget2 : dget k rest = some s := by
        unfold dget at hget ⊢
        rw [List.find?_cons_of_neg _ (by simpa using hk)] at hget
        exact hget
      exact ih (setProp stored p.1 (some p.2)) hnd.2 hget2

theorem updateNode_lookup (m2 n : KBNode) (k s : String)
    (hnodup : keysNodup n.props) (h : propLookup n k = some s) :
    propLookup (updateNode m2 n) k = some s :=
  overwriteProps_lookup k s n.props m2.props hnodup h

theorem mergeNodeInto_red_none (g : PyGraph) (label k : String)
    (n : KBNode) (hpk : propLookup n k = none) :
    mergeNodeInto g label k n = { g with nodes := g.nodes ++ [n] } := by
  unfold mergeNodeInto
  rw [hpk]

theorem mergeNodeInto_red_some (g : PyGraph) (label k : String)
    (n : KBNode) (v : String) (hpk : propLookup n k = some v) :
    mergeNodeInto g label k n
      = if g.nodes.any
            (fun m => decide (label ∈ m.labels ∧ propLookup m k = some v)) then
          { g with
            nodes := g.nodes.map (fun m =>
              if label ∈ m.labels ∧ propLookup m k = some v
              then updateNode m n else m) }
        else { g with nodes := g.nodes ++ [n] } := by
  unfold mergeNodeInto
  rw [hpk]

theorem mergeNodeInto_preserves (g : PyGraph) (label k : String)
    (n2 : KBNode) (s : String) (hn2 : keysNodup n2.props)
    (h : hasKeyNode g label k s) :
    hasKeyNode (mergeNodeInto g label k n2) label k s := by
  obtain ⟨m2, hm, hl, hs⟩ := h
  cases hpk : propLookup n2 k with
  | none =>
    rw [mergeNodeInto_red_none g label k n2 hpk]
    exact ⟨m2, List.mem_append.mpr (Or.inl hm), hl, hs⟩
  | some v =>
    rw [mergeNodeInto_red_some g label k n2 v hpk]
    by_cases hif : (g.nodes.any
        (fun m => decide (label ∈ m.labels ∧ propLookup m k = some v))) = true
    · rw [if_pos hif]
      by_cases hcond : label ∈ m2.labels ∧ propLookup m2 k = some v
      · refine ⟨updateNode m2 n2, ?_, ?_, ?_⟩
        · have hmap : (if label ∈ m2.labels ∧ propLookup m2 k = some v
              then updateNode m2 n2 else m2) ∈ g.nodes.map (fun m3 =>
                if label ∈ m3.labels ∧ propLookup m3 k = some v
                then updateNode m3 n2 else m3) :=
            List.mem_map_of_mem _ hm
          rw [if_pos hcond] at hmap
          exact hmap
        · exact mem_unionLabels_left _ _ _ hl
        · have hv : v = s := by
            rw [hcond.2] at hs
            exact Option.some_inj.mp hs
          exact updateNode_lookup m2 n2 k s hn2 (by rw [hpk, hv])
      · refine ⟨m2, ?_, hl, hs⟩
        have hmap : (if label ∈ m2.labels ∧ propLookup m2 k = some v
            then updateNode m2 n2 else m2) ∈ g.nodes.map (fun m3 =>
              if label ∈ m3.labels ∧ propLookup m3 k = some v
              then updateNode m3 n2 else m3) :=
          List.mem_map_of_mem _ hm
        rw [if_neg hcond] at hmap
        exact hmap
    · rw [if_neg hif]
      exact ⟨m2, List.mem_append.mpr (Or.inl hm), hl, hs⟩

theorem mergeNodeInto_creates (g : PyGraph) (label k : String) (n : KBNode)
    (s : String) (hl : label ∈ n.labels) (hk : propLookup n k = some s)
    (hnodup : keysNodup n.props) :
    hasKeyNode (mergeNodeInto g label k n) label k s := by
  rw [mergeNodeInto_red_some g label k n s hk]
  by_cases hif : (g.nodes.any
      (fun m => decide (label ∈ m.labels ∧ propLookup m k = some s))) = true
  · rw [if_pos hif]
    obtain ⟨m2, hm2, hp⟩ := List.any_eq_true.mp hif
    have hcond : label ∈ m2.labels ∧ propLookup m2 k = some s := by
      simpa using hp
    refine ⟨updateNode m2 n, ?_, mem_unionLabels_left _ _ _ hcond.1,
      updateNode_lookup m2 n k s hnodup hk⟩
    have hmap : (if label ∈ m2.labels ∧ propLookup m2 k = some s
        then updateNode m2 n else m2) ∈ g.nodes.map (fun m3 =>
          if label ∈ m3.labels ∧ propLookup m3 k = some s
          then updateNode m3 n else m3) :=
      List.mem_map_of_mem _ hm2
    rw [if_pos hcond] at hmap
    exact hmap
  · rw [if_neg hif]
    exact ⟨n, List.mem_append.mpr (Or.inr (List.mem_singleton.mpr rfl)),
      hl, hk⟩

theorem nodeFold_preserves (label k s : String) :
    ∀ (L : List KBNode) (g : PyGraph), (∀ x ∈ L, keysNodup x.props) →
      hasKeyNode g label k s →
      hasKeyNode (L.foldl (fun acc n => mergeNodeInto acc label k n) g)
        label k s := by
  intro L
  induction L with
  | nil => intro g _ h; exact h
  | cons c rest ih =>
    intro g hall h
    rw [List.foldl_cons]
    exact ih _ (fun x hx => hall x (List.mem_cons_of_mem c hx))
      (mergeNodeInto_preserves g label k c s
        (hall c (List.mem_cons_self c rest)) h)

theorem nodeFold_creates (label k s : String) :
    ∀ (L : List KBNode) (g : PyGraph), (∀ x ∈ L, keysNodup x.props) →
      ∀ n ∈ L, label ∈ n.labels → propLookup n k = some s →
      hasKeyNode (L.foldl (fun acc n => mergeNodeInto acc label k n) g)
        label k s := by
  intro L
  induction L with
  | nil => intro g _ n hn; cases hn
  | cons c rest ih =>
    intro g hall n hn hl hk
    rw [List.foldl_cons]
    rcases List.mem_cons.mp hn with he | hmem
    · subst he
      exact nodeFold_preserves label k s rest _
        (fun x hx => hall x (List.mem_cons_of_mem n hx))
        (mergeNodeInto_creates g label k n s hl hk
          (hall n (List.mem_cons_self n rest)))
    · exact ih _ (fun x hx => hall x (List.mem_cons_of_mem c hx)) n hmem hl hk

theorem mergeRelKeyed_nodes (g : PyGraph) (k : String) (r : Rel) :
    (mergeRelKeyed g k r).nodes = g.nodes := by
  unfold mergeRelKeyed
  split <;> rfl

theorem relFold_nodes (k : String) :
    ∀ (L : List Rel) (g : PyGraph),
      (L.foldl (fun acc r => mergeRelKeyed acc k r) g).nodes = g.nodes := by
  intro L
  induction L with
  | nil => intro g; rfl
  | cons r rest ih =>
    intro g
    rw [List.foldl_cons, ih, mergeRelKeyed_nodes]

theorem mergeSubgraph_preserves (g : PyGraph) (sg : Subgraph)
    (label k s : String) (hall : ∀ x ∈ sg.nodes, keysNodup x.props)
    (h : hasKeyNode g label k s) :
    hasKeyNode (mergeSubgraph g sg label k) label k s := by
  unfold mergeSubgraph
  have h1 := nodeFold_preserves label k s sg.nodes g hall h
  unfold hasKeyNode at h1 ⊢
  rw [relFold_nodes]
  exact h1

theorem mergeSubgraph_creates (g : PyGraph) (sg : Subgraph)
    (label k s : String) (n : KBNode) (hmem : n ∈ sg.nodes)
    (hl : label ∈ n.labels) (hk : propLookup n k = some s)
    (hall : ∀ x ∈ sg.nodes, keysNodup x.props) :
    hasKeyNode (mergeSubgraph g sg label k) label k s := by
  unfold mergeSubgraph
  have h1 := nodeFold_creates label k s sg.nodes g hall n hmem hl hk
  unfold hasKeyNode at h1 ⊢
  rw [relFold_nodes]
  exact h1

theorem modelsFold_preserves (label k s : String) :
    ∀ (ms : List KnowledgeBaseModel) (g : PyGraph),
      (∀ mm ∈ ms, ∀ x ∈ mm.subgraph.nodes, keysNodup x.props) →
      hasKeyNode g label k s →
      hasKeyNode
        (ms.foldl (fun acc mm => mergeSubgraph acc mm.subgraph label k) g)
        label k s := by
  intro ms
  induction ms with
  | nil => intro g _ h; exact h
  | cons mm rest ih =>
    intro g hall h
    rw [List.foldl_cons]
    exact ih _ (fun m3 hm3 => hall m3 (List.mem_cons_of_mem mm hm3))
      (mergeSubgraph_preserves g mm.subgraph label k s
        (hall mm (List.mem_cons_self mm rest)) h)

theorem modelsFold_hasKey (label k s : String) :
    ∀ (ms : List KnowledgeBaseModel) (g : PyGraph)
      (m2 : KnowledgeBaseModel), m2 ∈ ms →
      (∀ mm ∈ ms, ∀ x ∈ mm.subgraph.nodes, keysNodup x.props) →
      ∀ n ∈ m2.subgraph.nodes, label ∈ n.labels → propLookup n k = some s →
      hasKeyNode
        (ms.foldl (fun acc mm => mergeSubgraph acc mm.subgraph label k) g)
        label k s := by
  intro ms
  induction ms with
  | nil => intro g m2 hm2; cases hm2
  | cons mm rest ih =>
    intro g m2 hm2 hall n hn hl hk
    rw [List.foldl_cons]
    rcases List.mem_cons.mp hm2 with he | hmem
    · subst he
      exact modelsFold_preserves label k s rest _
        (fun m3 hm3 => hall m3 (List.mem_cons_of_mem m2 hm3))
        (mergeSubgraph_creates g m2.subgraph label k s n hn hl hk
          (hall m2 (List.mem_cons_self m2 rest)))
    · exact ih _ m2 hmem
        (fun m3 hm3 => hall m3 (List.mem_cons_of_mem mm hm3)) n hn hl hk

theorem hasKeyNode_matchFirst (g : PyGraph) (label k s : String)
    (h : hasKeyNode g label k s) :
    (matchFirst g label k (some s)).isSome = true := by
  obtain ⟨m2, hm, hl, hs⟩ := h
  have hred : matchFirst g label k (some s)
      = g.nodes.find?
          (fun n => decide (label ∈ n.labels ∧ propLookup n k = some s)) :=
    rfl
  rw [hred]
  cases hfind : g.nodes.find?
      (fun n => decide (label ∈ n.labels ∧ propLookup n k = some s)) with
  | some x => rfl
  | none =>
    have h2 := List.find?_eq_none.mp hfind m2 hm
    simp [hl, hs] at h2

theorem createRefEntry_nodes (p : Bool) (acc : PyGraph × List MissedReport)
    (e : DecisionNode × DecisionReference) :
    (createRefEntry p acc e).1.nodes = acc.1.nodes := by
  unfold createRefEntry
  cases hf : matchFirst acc.1 "KBNode" "alef_id" (some e.1.id) with
  | some f =>
    cases ht : matchFirst acc.1 "KBNode" "alef_id" e.2.id with
    | some t => exact mergeRel_nodes acc.1 ⟨"references_to", f, t⟩
    | none => cases p <;> rfl
  | none => cases p <;> rfl

theorem entriesFold_nodes (p : Bool) :
    ∀ (L : List (DecisionNode × DecisionReference))
      (acc : PyGraph × List MissedReport),
      (L.foldl (createRefEntry p) acc).1.nodes = acc.1.nodes := by
  intro L
  induction L with
  | nil => intro acc; rfl
  | cons e rest ih =>
    intro acc
    rw [List.foldl_cons, ih, createRefEntry_nodes]

theorem createReferences_nodes (g : PyGraph)
    (ms : List KnowledgeBaseModel) (p : Bool) :
    (createReferences g ms p).1.nodes = g.nodes := by
  unfold createReferences
  rw [createReferences_eq_flat]
  exact entriesFold_nodes p (allPending ms) (g, [])

mutual
theorem treePropsOk_mem :
    ∀ c : DecisionNode, treePropsOk c = true →
      ∀ dmn ∈ treeNodes c, ∀ p ∈ dmn.properties, p.name ≠ "alef_id"
  | .mk i cn rx props refs cs, h, dmn, hdmn, p, hp => by
    simp only [treePropsOk, Bool.and_eq_true, List.all_eq_true] at h
    simp only [treeNodes, List.mem_cons] at hdmn
    rcases hdmn with he | hmem
    · subst he
      exact of_decide_eq_true (h.1 p hp)
    · exact forestPropsOk_mem cs h.2 dmn hmem p hp

theorem forestPropsOk_mem :
    ∀ cs : DecisionForest, forestPropsOk cs = true →
      ∀ dmn ∈ forestNodes cs, ∀ p ∈ dmn.properties, p.name ≠ "alef_id"
  | .nil, _, dmn, hdmn => by cases hdmn
  | .cons c rest, h, dmn, hdmn => by
    simp only [forestPropsOk, Bool.and_eq_true] at h
    simp only [forestNodes, List.mem_append] at hdmn
    rcases hdmn with hmem | hmem
    · exact treePropsOk_mem c h.1 dmn hmem
    · exact forestPropsOk_mem rest h.2 dmn hmem
end

/-! ## Claim C10 — labels and the (KBNode, alef_id) join key -/

/-- Claim C10, corrected part.  The claim says every graph node carries
its model node's stable identifier in `alef_id`; but `create_node` writes
the instance properties *after* the identifier (lines 97, 101-103), so an
instance property itself named `alef_id` overwrites it: the node built for
a model node with id `"n1"` and a property `alef_id = "zzz"` carries
`"zzz"`, not `"n1"`. -/
theorem kb_join_key_counterexample :
    ((fromDecisionModel ⟨"m1",
        .cons (.mk "n1" "x.C" .root [⟨"r1", "zzz", "alef_id"⟩] [] .nil)
          .nil⟩).subgraph.nodes.map (fun n => propLookup n "alef_id"))
      = [some "zzz"]
    ∧ ("zzz" : String) ≠ "n1" := by
  exact ⟨by decide, by decide⟩

/-- Claim C10, amended: for every model whose instance properties do not
themselves use the name `alef_id`, every graph node the Graph Builder
produces carries the extra label `KBNode` alongside its concept-name and
model-name labels and carries its model node's stable identifier in
`alef_id`; consequently each such node is retrievable after the idempotent
bulk merge keyed on `("KBNode", "alef_id")` by the resolver's
`match("KBNode", alef_id=...)` lookup.  (Without that proviso a property
named `alef_id` overwrites the join key, as the counterexample shows.) -/
theorem kb_node_join_key (d : DMData) (hp : forestPropsOk d.nodes = true) :
    (∀ n ∈ (fromDecisionModel d).subgraph.nodes,
        "KBNode" ∈ n.labels
          ∧ ∃ dmn ∈ forestNodes d.nodes,
              propLookup n "alef_id" = some dmn.id
                ∧ dmn.concept ∈ n.labels ∧ d.modelName ∈ n.labels)
      ∧ (∀ g0 : PyGraph, ∀ n ∈ (fromDecisionModel d).subgraph.nodes,
          (matchFirst
              (mergeSubgraph g0 (fromDecisionModel d).subgraph "KBNode"
                "alef_id")
              "KBNode" "alef_id" (propLookup n "alef_id")).isSome = true) := by
  constructor
  · intro n hn
    obtain ⟨dmn, hdmn, hlab, hprops⟩ := fromDecisionModel_shape d n hn
    have hpn := forestPropsOk_mem d.nodes hp dmn hdmn
    refine ⟨?_, dmn, hdmn, ?_, ?_, ?_⟩
    · rw [hlab]
      exact (buildLabels_mem dmn d.modelName).1
    · show dget "alef_id" n.props = some dmn.id
      rw [hprops]
      exact buildProps_alef_id dmn hpn
    · rw [hlab]
      exact (buildLabels_mem dmn d.modelName).2.1
    · rw [hlab]
      exact (buildLabels_mem dmn d.modelName).2.2
  · intro g0 n hn
    obtain ⟨dmn, hdmn, hlab, hprops⟩ := fromDecisionModel_shape d n hn
    have hpn := forestPropsOk_mem d.nodes hp dmn hdmn
    have hs : propLookup n "alef_id" = some dmn.id := by
      show dget "alef_id" n.props = some dmn.id
      rw [hprops]
      exact buildProps_alef_id dmn hpn
    rw [hs]
    apply hasKeyNode_matchFirst
    apply mergeSubgraph_creates g0 _ "KBNode" "alef_id" dmn.id n hn
    · rw [hlab]
      exact (buildLabels_mem dmn d.modelName).1
    · exact hs
    · intro x hx
      exact (fromDecisionModel_node_basic d x hx).2.2

/-- Witness for C10's amended statement on a one-node model. -/
theorem kb_node_join_key_witness :
    ("KBNode" ∈ (⟨0, ["KBNode", "C", "m1"],
          [("alef_id", "n1"), ("role", "root")]⟩ : KBNode).labels
        ∧ ∃ dmn ∈ forestNodes (.cons (.mk "n1" "x.C" .root [] [] .nil) .nil),
            propLookup (⟨0, ["KBNode", "C", "m1"],
                [("alef_id", "n1"), ("role", "root")]⟩ : KBNode) "alef_id"
              = some dmn.id
              ∧ dmn.concept ∈ (⟨0, ["KBNode", "C", "m1"],
                  [("alef_id", "n1"), ("role", "root")]⟩ : KBNode).labels
              ∧ "m1" ∈ (⟨0, ["KBNode", "C", "m1"],
                  [("alef_id", "n1"), ("role", "root")]⟩ : KBNode).labels)
      ∧ (matchFirst
          (mergeSubgraph ⟨[], []⟩
            (fromDecisionModel ⟨"m1",
              .cons (.mk "n1" "x.C" .root [] [] .nil) .nil⟩).subgraph
            "KBNode" "alef_id")
          "KBNode" "alef_id"
          (propLookup (⟨0, ["KBNode", "C", "m1"],
              [("alef_id", "n1"), ("role", "root")]⟩ : KBNode)
            "alef_id")).isSome = true :=
  ⟨(kb_node_join_key ⟨"m1", .cons (.mk "n1" "x.C" .root [] [] .nil) .nil⟩
      (by decide)).1
    ⟨0, ["KBNode", "C", "m1"], [("alef_id", "n1"), ("role", "root")]⟩
    (by decide),
  (kb_node_join_key ⟨"m1", .cons (.mk "n1" "x.C" .root [] [] .nil) .nil⟩
      (by decide)).2 ⟨[], []⟩
    ⟨0, ["KBNode", "C", "m1"], [("alef_id", "n1"), ("role", "root")]⟩
    (by decide)⟩

/-! ## Claim C7 — the two-phase barrier -/

theorem mergedGraph_retrieves (g0 : PyGraph) (ms : List KnowledgeBaseModel)
    (hbuilt : ∀ mm ∈ ms, ∀ x ∈ mm.subgraph.nodes,
        "KBNode" ∈ x.labels ∧ (propLookup x "alef_id").isSome = true
          ∧ keysNodup x.props)
    (m2 : KnowledgeBaseModel) (hm : m2 ∈ ms) (n : KBNode)
    (hn : n ∈ m2.subgraph.nodes) :
    ∃ gn ∈ (mergedGraph g0 ms).nodes,
      "KBNode" ∈ gn.labels
        ∧ propLookup gn "alef_id" = propLookup n "alef_id" := by
  obtain ⟨hl, hksome, hknd⟩ := hbuilt m2 hm n hn
  obtain ⟨s, hs⟩ := Option.isSome_iff_exists.mp hksome
  have hkey := modelsFold_hasKey "KBNode" "alef_id" s ms g0 m2 hm
    (fun mm hmm x hx => (hbuilt mm hmm x hx).2.2) n hn hl hs
  obtain ⟨gn, hgn, hgl, hgs⟩ := hkey
  exact ⟨gn, hgn, hgl, by rw [hgs, hs]⟩

/-- Claim C7: in `LegalKnowledgeBase.from_decision_method`, (i) in the
statement-order trace every graph-building and bulk-merge event strictly
precedes the reference-resolution event; (ii) the node index the resolver
reads is exactly the merge of all four built subgraphs into the initial
store (the resolver itself never changes it); and (iii) every node of
every one of the four built models is visible — by its `KBNode` label and
`alef_id` join key — in the graph the resolver queries.  Together these
establish the strict build-all-then-resolve-all barrier. -/
theorem two_phase_barrier (g0 : PyGraph) (dm : LegalDecisionMethodData)
    (prt : Bool) :
    (∀ (i j : Nat) (hi : i < (fromDecisionMethodPhases dm).length)
        (hj : j < (fromDecisionMethodPhases dm).length),
        (fromDecisionMethodPhases dm).get ⟨j, hj⟩ = KbPhase.resolveReferences →
        (fromDecisionMethodPhases dm).get ⟨i, hi⟩ ≠ KbPhase.resolveReferences →
        i < j)
      ∧ (fromDecisionMethod g0 dm prt).1.graph.nodes
          = (mergedGraph g0 [fromDecisionModel dm.objectModel,
              fromDecisionModel dm.regelModel,
              fromDecisionModel dm.serviceModel,
              fromDecisionModel dm.testModel]).nodes
      ∧ (∀ m2 ∈ (fromDecisionMethod g0 dm prt).1.models,
          ∀ n ∈ m2.subgraph.nodes,
            ∃ gn ∈ (fromDecisionMethod g0 dm prt).1.graph.nodes,
              "KBNode" ∈ gn.labels
                ∧ propLookup gn "alef_id" = propLookup n "alef_id") := by
  have hgraph : (fromDecisionMethod g0 dm prt).1.graph
      = (createReferences
          (mergedGraph g0 [fromDecisionModel dm.objectModel,
            fromDecisionModel dm.regelModel, fromDecisionModel dm.serviceModel,
            fromDecisionModel dm.testModel])
          [fromDecisionModel dm.objectModel, fromDecisionModel dm.regelModel,
            fromDecisionModel dm.serviceModel, fromDecisionModel dm.testModel]
          prt).1 := rfl
  have hnodes : (fromDecisionMethod g0 dm prt).1.graph.nodes
      = (mergedGraph g0 [fromDecisionModel dm.objectModel,
          fromDecisionModel dm.regelModel, fromDecisionModel dm.serviceModel,
          fromDecisionModel dm.testModel]).nodes := by
    rw [hgraph, createReferences_nodes]
  refine ⟨?_, hnodes, ?_⟩
  · intro i j hi hj hjr hir
    have hlen : (fromDecisionMethodPhases dm).length = 9 := rfl
    have hi9 : i < 9 := by omega
    have hj9 : j < 9 := by omega
    have hj8 : j = 8 := by
      interval_cases j
      · exact absurd hjr (fun h => KbPhase.noConfusion h)
      · exact absurd hjr (fun h => KbPhase.noConfusion h)
      · exact absurd hjr (fun h => KbPhase.noConfusion h)
      · exact absurd hjr (fun h => KbPhase.noConfusion h)
      · exact absurd hjr (fun h => KbPhase.noConfusion h)
      · exact absurd hjr (fun h => KbPhase.noConfusion h)
      · exact absurd hjr (fun h => KbPhase.noConfusion h)
      · exact absurd hjr (fun h => KbPhase.noConfusion h)
      · rfl
    have hi8 : i ≠ 8 := by
      intro he
      subst he
      exact hir rfl
    omega
  · intro m2 hm2 n hn
    have hmodels : (fromDecisionMethod g0 dm prt).1.models
        = [fromDecisionModel dm.objectModel, fromDecisionModel dm.regelModel,
           fromDecisionModel dm.serviceModel,
           fromDecisionModel dm.testModel] := rfl
    rw [hmodels] at hm2
    rw [hnodes]
    apply mergedGraph_retrieves g0 _ ?_ m2 hm2 n hn
    intro mm hmm
    simp only [List.mem_cons, List.not_mem_nil, or_false] at hmm
    rcases hmm with h | h | h | h <;>
      (subst h; exact fromDecisionModel_node_basic _)

/-- Witness for C7's trace conjunct at concrete indices: event 0 (a
graph-building event) precedes event 8 (the resolution event). -/
theorem two_phase_barrier_witness :
    ((fromDecisionMethodPhases ⟨⟨"gegevens", .nil⟩, ⟨"regels", .nil⟩,
        ⟨"services", .nil⟩, ⟨"tests", .nil⟩⟩).get ⟨8, by decide⟩
      = KbPhase.resolveReferences)
    ∧ ((fromDecisionMethodPhases ⟨⟨"gegevens", .nil⟩, ⟨"regels", .nil⟩,
        ⟨"services", .nil⟩, ⟨"tests", .nil⟩⟩).get ⟨0, by decide⟩
      ≠ KbPhase.resolveReferences)
    ∧ 0 < 8 :=
  ⟨by decide, by decide,
    (two_phase_barrier ⟨[], []⟩ ⟨⟨"gegevens", .nil⟩, ⟨"regels", .nil⟩,
        ⟨"services", .nil⟩, ⟨"tests", .nil⟩⟩ false).1 0 8 (by decide)
      (by decide) (by decide) (by decide)⟩

end MpsExplaineo
